import Mathlib

/-!
# go-mysql-redisearch: the synchronisation engine of `river/sync.go`

A shallow embedding of the row-to-document builders, the identifier
derivation and the sync loop, followed by the properties proved about them.

Modelling conventions.
* A Go `string` is a Lean `String`; a `[]byte` is carried by the text it
  holds, so the conversion `string(b[:])` keeps the payload.
* A Go `interface{}` row value is a `Value`; `reflect.DeepEqual` on two row
  values is equality of `Value`s.
* A Go `map[string]interface{}` (the document properties) is an association
  list with distinct keys, updated in place by `mapSet`.
* `rule.FieldMapping` is the list of the entries of the Go map, in the order
  the `range` loop visits them; a Go map has distinct keys (`Rule.WF`).
* Functions of imported packages (`canal`, `encoding/json`) and the rule's
  `CheckFilter` are parameters.
* An `int64` is an `Int`, wrapped by `toInt64` where the code can overflow;
  clock readings and durations are integers in nanoseconds.
* The sync loop is a function from the inputs of its successive iterations
  (what the `select` receives, and what the sink and the position store
  answer when called) to the sequence of its effects.
-/

namespace River

/-! ## Row values -/

/-- The integer types a row value can have at run time. -/
inductive IntKind
  | int | int8 | int16 | int32 | int64 | uint | uint8 | uint16 | uint32 | uint64
  deriving DecidableEq

/-- A dynamically typed value (`interface{}`): the raw column values of a row
event, the coerced values, and the field values of a document. -/
inductive Value
  /-- the nil interface -/
  | nil
  /-- an integer of the given Go type -/
  | int (k : IntKind) (n : Int)
  /-- a `string` -/
  | str (s : String)
  /-- a `[]byte`, carried by its text -/
  | bytes (s : String)
  /-- a `[]string` -/
  | strs (xs : List String)
  /-- a value of any other dynamic type (float, bool, decoded JSON tree),
  carried by its default rendering -/
  | other (repr : String)
  deriving DecidableEq

/-- The call `reflect.DeepEqual(a, b)` on two row values: equal dynamic type
and equal content (a floating-point NaN, which is not deeply equal to itself,
is not among the values of the model). -/
def DeepEqual (a b : Value) : Bool := decide (a = b)

/-- Two's-complement wrap-around of an integer into the `int64` range. -/
def toInt64 (n : Int) : Int := (n + 2 ^ 63) % 2 ^ 64 - 2 ^ 63

/-- Decimal rendering of the bytes of a `[]byte`, as `%v` prints them. -/
def bytesRepr (s : String) : String :=
  "[" ++ " ".intercalate (s.toUTF8.toList.map (fun b => toString b.toNat)) ++ "]"

/-- The default formatting `fmt.Sprintf("%v", value)`. -/
def Sprint : Value → String
  | .nil => "<nil>"
  | .int _ n => toString n
  | .str s => s
  | .bytes s => bytesRepr s
  | .strs xs => "[" ++ " ".intercalate xs ++ "]"
  | .other repr => repr

/-! ## Table schema (package `schema`) -/

/-- The column type tags `schema.TYPE_*`. -/
inductive ColType
  | NUMBER | FLOAT | ENUM | SET | STRING | DATETIME | TIMESTAMP | DATE | TIME | BIT | JSON
  deriving DecidableEq

/-- A column descriptor `schema.TableColumn`; `Typ` is the Go field `Type`. -/
structure TableColumn where
  Name : String
  Typ : ColType
  EnumValues : List String
  SetValues : List String
  deriving DecidableEq

/-- A table descriptor `schema.Table`; `PKColumns` are indices into `Columns`. -/
structure Table where
  Schema : String
  Name : String
  Columns : List TableColumn
  PKColumns : List Nat
  deriving DecidableEq

/-! ## Rules and imported functions -/

/-- A sync rule. `ID = none` is the nil slice (no ID columns declared);
`CheckFilter` is the rule's column filter predicate. -/
structure Rule where
  ID : Option (List String)
  IdPrefix : String
  FieldMapping : List (String × String)
  TableInfo : Table
  CheckFilter : String → Bool

/-- A rule is well formed when its field mapping, a Go map, has distinct keys. -/
def Rule.WF (rule : Rule) : Prop := (rule.FieldMapping.map Prod.fst).Nodup

instance (rule : Rule) : Decidable rule.WF := by
  unfold Rule.WF; infer_instance

/-- The functions of imported packages the river calls: the two row readers
of package `canal` and `json.Unmarshal` (`none` is a decoding error, `some f`
the decoded value, `some nil` for the JSON `null`). -/
structure Lib where
  GetPKValues : Table → List Value → Except String (List Value)
  GetColumnValue : Table → String → List Value → Except String Value
  Unmarshal : String → Option Value

deriving instance DecidableEq for Except

/-- The errors the builders return. -/
inductive SyncErr
  /-- an error returned by `canal.GetPKValues` or `canal.GetColumnValue` -/
  | lookup (msg : String)
  /-- "The %ds id or PK value is nil" -/
  | nilID (i : Nat)
  /-- "invalid update rows event, must have 2x rows, but %d" -/
  | invalidUpdateRows (n : Nat)
  deriving DecidableEq

/-! ## Documents (package `redisearch`) -/

/-- A `redisearch.Document`: identifier and property map (the score is the
constant 1.0 and the payload is never set). -/
structure Document where
  Id : String
  Properties : List (String × Value)
  deriving DecidableEq

/-- The map assignment `m[k] = v`. -/
def mapSet : List (String × Value) → String → Value → List (String × Value)
  | [], k, v => [(k, v)]
  | (k0, v0) :: rest, k, v => if k0 = k then (k, v) :: rest else (k0, v0) :: mapSet rest k v

/-- The map read `m[k]`. -/
def mapGet : List (String × Value) → String → Option Value
  | [], _ => none
  | (k0, v0) :: rest, k => if k0 = k then some v0 else mapGet rest k

/-- The constructor `redisearch.NewDocument(id, 1.0)`. -/
def NewDocument (id : String) : Document := ⟨id, []⟩

/-- The method `Document.Set(name, value)`. -/
def Document.Set (d : Document) (name : String) (value : Value) : Document :=
  ⟨d.Id, mapSet d.Properties name value⟩

/-! ## Constants -/

def fieldTypeList : String := "list"
def fieldTypeGeoLat : String := "geo_lat"
def fieldTypeGeoLon : String := "geo_lon"
def fieldTypeNumericBool : String := "numeric_bool"

/-- The action names `canal.InsertAction`, `canal.DeleteAction`, `canal.UpdateAction`. -/
def InsertAction : String := "insert"
def DeleteAction : String := "delete"
def UpdateAction : String := "update"

/-! ## `strings.Split` -/

/-- Splitting a character list at every occurrence of `sep`. -/
def splitChars (sep : Char) : List Char → List (List Char)
  | [] => [[]]
  | c :: cs =>
    if c = sep then [] :: splitChars sep cs
    else
      match splitChars sep cs with
      | [] => [[c]]
      | w :: ws => (c :: w) :: ws

/-- The call `strings.Split(s, sep)` for a one-character separator. -/
def Split (s : String) (sep : Char) : List String :=
  (splitChars sep s.data).map String.mk

/-! ## `getFieldParts` -/

/-- `River.getFieldParts`: source column, target field, field type. -/
def getFieldParts (k : String) (v : String) : String × String × String :=
  let composedField := Split v ','
  let mysql := k
  let fieldName := composedField.headD ""
  let fieldType := ""
  let fieldName := if 0 = fieldName.length then mysql else fieldName
  let fieldType := if 2 = composedField.length then composedField.getD 1 "" else fieldType
  (mysql, fieldName, fieldType)

/-- The text of `v` before its first comma (all of `v` when it has none). -/
def beforeComma (v : String) : String :=
  String.mk (v.data.takeWhile (fun ch => decide (ch ≠ ',')))

/-- The text of `v` after its first comma (empty when it has none). -/
def afterComma (v : String) : String :=
  String.mk ((v.data.dropWhile (fun ch => decide (ch ≠ ','))).drop 1)

/-- The number of commas of `v`. -/
def commas (v : String) : Nat := v.data.count ','

/-! ## `makeReqColumnData` -/

/-- The zero-date test of the `TYPE_TIMESTAMP` case. -/
def timestampResult (stringVal : String) : Value :=
  if stringVal = "0000-00-00 00:00:00" ∨ stringVal = "1970-01-01 01:00:00"
      ∨ stringVal = "1970-01-01 00:00:00" then .nil
  else .str stringVal

/-- The zero-date test of the `TYPE_DATE` case. -/
def dateResult (stringVal : String) : Value :=
  if stringVal = "0000-00-00" then .nil else .str stringVal

/-- The `TYPE_JSON` case on the text `v` of the raw value `value`. -/
def jsonResult (r : Lib) (v : String) (value : Value) : Value :=
  match r.Unmarshal v with
  | some f => if f ≠ .nil then f else value
  | none => value

/-- The index expression `xs[i]` on a slice of strings, which panics at run
time when `i` is out of range: `none` is the panic. -/
def indexString (xs : List String) (i : Int) : Option String :=
  if i < 0 then none else xs[i.toNat]?

/-- The `int64` case of `TYPE_ENUM`: the value returned, or `none` when the
index expression `col.EnumValues[eNum]` panics. -/
def enumValue (col : TableColumn) (value : Int) : Option Value :=
  let eNum := toInt64 (value - 1)
  if eNum < 0 ∨ eNum ≥ (col.EnumValues.length : Int) then some (.str "")
  else (indexString col.EnumValues eNum).map Value.str

/-- `River.makeReqColumnData`: the coercion of a raw column value. A `case`
of a Go `switch` does not fall through, so the empty `TYPE_DATETIME` case
leaves the switch and the value is returned as it is. The index expression
of the `TYPE_ENUM` case is the only place where the function can panic;
`enumValue` gives `none` there, for which this function, which has no
failure, returns a value that the `int64` case returns on no other path. -/
def makeReqColumnData (r : Lib) (col : TableColumn) (value : Value) : Value :=
  match col.Typ with
  | .ENUM =>
    match value with
    | .int .int64 value =>
      match enumValue col value with
      | some v => v
      | none => .other "panic: index out of range"
    | _ => value
  | .SET =>
    match value with
    | .int .int64 bitmask =>
      let sets := (col.SetValues.enum.filter
        (fun p => decide (Int.land bitmask (toInt64 (2 ^ p.1)) > 0))).map Prod.snd
      .str (",".intercalate sets)
    | _ => value
  | .BIT =>
    match value with
    | .str value => if value = "\x01" then .int .int64 1 else .int .int64 0
    | _ => value
  | .STRING =>
    match value with
    | .bytes value => .str value
    | _ => value
  | .DATETIME => value
  | .TIMESTAMP =>
    match value with
    | .bytes value => timestampResult value
    | .str value => timestampResult value
    | _ => value
  | .DATE =>
    match value with
    | .bytes value => dateResult value
    | .str value => dateResult value
    | _ => value
  | .JSON =>
    match value with
    | .str v => jsonResult r v value
    | .bytes v => jsonResult r v value
    | _ => value
  | _ => value

/-! ## The per-action property builders -/

/-- One iteration of the mapping loop of `makeDeleteReqData`: the state is the
document and the flag `mapped`. -/
def deleteMapping (c : TableColumn) (st : Document × Bool) (kv : String × String) :
    Document × Bool :=
  let (mysql, fieldName, _) := getFieldParts kv.1 kv.2
  if mysql = c.Name then (st.1.Set fieldName (.str ""), true) else st

/-- The body of the column loop of `makeDeleteReqData` for column `c` at index `i`. -/
def deleteColumn (rule : Rule) (values : List Value) (req : Document)
    (ic : Nat × TableColumn) : Document :=
  let (i, c) := ic
  if !rule.CheckFilter c.Name then req
  else if i ≥ values.length then req
  else
    let st := rule.FieldMapping.foldl (deleteMapping c) (req, false)
    if st.2 = false then st.1.Set c.Name (.str "") else st.1

/-- `River.makeDeleteReqData`. -/
def makeDeleteReqData (req : Document) (rule : Rule) (values : List Value) : Document :=
  rule.TableInfo.Columns.enum.foldl (deleteColumn rule values) req

/-- The scratch map `geoField`, which is only ever accessed at the keys
"lat" and "lon"; `none` is an absent key. -/
structure GeoField where
  lat : Option Value
  lon : Option Value
  deriving DecidableEq

/-- The state of the mapping loop of the insert and update builders. -/
structure MapState where
  req : Document
  mapped : Bool
  geoField : GeoField
  deriving DecidableEq

/-- The `numeric_bool` branch: set 0, then 1 when the value is a positive `int64`. -/
def setNumericBool (req : Document) (fieldName : String) (v : Value) : Document :=
  let req := req.Set fieldName (.int .int 0)
  match v with
  | .int .int64 boolVal => if boolVal > 0 then req.Set fieldName (.int .int 1) else req
  | _ => req

/-- The `geo_lat` / `geo_lon` branch: store the value in the scratch map, and
set the field when both sides are strings. -/
def setGeo (st : MapState) (fieldName fieldType : String) (v : Value) : MapState :=
  let g : GeoField :=
    if fieldType = fieldTypeGeoLat then ⟨some v, st.geoField.lon⟩ else ⟨st.geoField.lat, some v⟩
  match g.lat, g.lon with
  | some (.str lat), some (.str lon) => ⟨st.req.Set fieldName (.str (lon ++ " " ++ lat)), st.mapped, g⟩
  | _, _ => ⟨st.req, st.mapped, g⟩

/-- One iteration of the mapping loop of `makeInsertReqData` for column `c`
with raw value `raw`. -/
def insertMapping (r : Lib) (c : TableColumn) (raw : Value) (st : MapState)
    (kv : String × String) : MapState :=
  let (mysql, fieldName, fieldType) := getFieldParts kv.1 kv.2
  if mysql = c.Name then
    let st : MapState := ⟨st.req, true, st.geoField⟩
    let v := makeReqColumnData r c raw
    if v = .nil then st
    else if fieldType = fieldTypeList then
      match v with
      | .str str => ⟨st.req.Set fieldName (.strs (Split str ',')), st.mapped, st.geoField⟩
      | _ => ⟨st.req.Set fieldName v, st.mapped, st.geoField⟩
    else if fieldType = fieldTypeNumericBool then
      ⟨setNumericBool st.req fieldName v, st.mapped, st.geoField⟩
    else if fieldType = fieldTypeGeoLat ∨ fieldType = fieldTypeGeoLon then
      setGeo st fieldName fieldType v
    else ⟨st.req.Set fieldName v, st.mapped, st.geoField⟩
  else st

/-- The body of the column loop of `makeInsertReqData`; the scratch map
`geoField` is created afresh for every column. -/
def insertColumn (r : Lib) (rule : Rule) (values : List Value) (req : Document)
    (ic : Nat × TableColumn) : Document :=
  let (i, c) := ic
  if !rule.CheckFilter c.Name then req
  else
    match values[i]? with
    | none => req
    | some raw =>
      let st := rule.FieldMapping.foldl (insertMapping r c raw) ⟨req, false, ⟨none, none⟩⟩
      if st.mapped = false then
        let v := makeReqColumnData r c raw
        if v ≠ .nil then st.req.Set c.Name v else st.req
      else st.req

/-- `River.makeInsertReqData`. -/
def makeInsertReqData (r : Lib) (req : Document) (rule : Rule) (values : List Value) :
    Document :=
  rule.TableInfo.Columns.enum.foldl (insertColumn r rule values) req

/-- One iteration of the mapping loop of `makeUpdateReqData` for column `c`
with raw after-value `raw`. -/
def updateMapping (r : Lib) (c : TableColumn) (raw : Value) (st : MapState)
    (kv : String × String) : MapState :=
  let (mysql, fieldName, fieldType) := getFieldParts kv.1 kv.2
  if mysql = c.Name then
    let st : MapState := ⟨st.req, true, st.geoField⟩
    let v := makeReqColumnData r c raw
    if v = .nil then ⟨st.req.Set fieldName (.str ""), st.mapped, st.geoField⟩
    else if fieldType = fieldTypeNumericBool then
      ⟨setNumericBool st.req fieldName v, st.mapped, st.geoField⟩
    else if fieldType = fieldTypeGeoLat ∨ fieldType = fieldTypeGeoLon then
      setGeo st fieldName fieldType v
    else
      match v with
      | .str str =>
        if fieldType = fieldTypeList then
          ⟨st.req.Set fieldName (.strs (Split str ',')), st.mapped, st.geoField⟩
        else ⟨st.req.Set fieldName (.str str), st.mapped, st.geoField⟩
      | _ => ⟨st.req.Set fieldName v, st.mapped, st.geoField⟩
  else st

/-- The body of the column loop of `makeUpdateReqData`. -/
def updateColumn (r : Lib) (rule : Rule) (beforeValues afterValues : List Value)
    (req : Document) (ic : Nat × TableColumn) : Document :=
  let (i, c) := ic
  if !rule.CheckFilter c.Name then req
  else
    match beforeValues[i]?, afterValues[i]? with
    | some before, some after =>
      if DeepEqual before after then req
      else
        let st := rule.FieldMapping.foldl (updateMapping r c after) ⟨req, false, ⟨none, none⟩⟩
        if st.mapped = false then
          let v := makeReqColumnData r c after
          if v = .nil then st.req.Set c.Name (.str "") else st.req.Set c.Name v
        else st.req
    | _, _ => req

/-- `River.makeUpdateReqData`. -/
def makeUpdateReqData (r : Lib) (req : Document) (rule : Rule)
    (beforeValues afterValues : List Value) : Document :=
  rule.TableInfo.Columns.enum.foldl (updateColumn r rule beforeValues afterValues) req

/-! ## `getDocID` -/

/-- The loop of `getDocID` over the rule's ID columns: `ids` collects the
values read so far, and the first failing read ends the loop. -/
def idColumnValues (r : Lib) (rule : Rule) (row : List Value) :
    List String → List Value → Except String (List Value)
  | [], ids => .ok ids
  | column :: rest, ids =>
    match r.GetColumnValue rule.TableInfo column row with
    | .error err => .error err
    | .ok value => idColumnValues r rule row rest (ids ++ [value])

/-- The first half of `getDocID`: the identifier components. -/
def idValues (r : Lib) (rule : Rule) (row : List Value) : Except String (List Value) :=
  match rule.ID with
  | none => r.GetPKValues rule.TableInfo row
  | some columns => idColumnValues r rule row columns []

/-- The second loop of `getDocID`: `i` is the index of the next component,
`buf` the buffer and `sep` the separator to write before it. -/
def writeIDs : List Value → Nat → String → String → Except SyncErr String
  | [], _, buf, _ => .ok buf
  | value :: rest, i, buf, sep =>
    if value = .nil then .error (.nilID i)
    else writeIDs rest (i + 1) (buf ++ (sep ++ Sprint value)) ":"

/-- `River.getDocID`. -/
def getDocID (r : Lib) (rule : Rule) (row : List Value) : Except SyncErr String :=
  match idValues r rule row with
  | .error err => .error (.lookup err)
  | .ok ids => writeIDs ids 0 "" ""

/-! ## The request builders -/

/-- The identifier of a request: the rule's prefix and ":" come first when
the prefix is not empty. -/
def withIdPrefix (rule : Rule) (req : Document) : Document :=
  if rule.IdPrefix.length > 0 then ⟨rule.IdPrefix ++ ":" ++ req.Id, req.Properties⟩ else req

/-- The document `makeRequest` builds for one row whose identifier is `id`. -/
def requestDoc (r : Lib) (rule : Rule) (action : String) (id : String)
    (values : List Value) : Document :=
  let req := withIdPrefix rule (NewDocument id)
  if action = DeleteAction then makeDeleteReqData req rule values
  else makeInsertReqData r req rule values

/-- The loop of `makeRequest` over the rows; `reqs` collects the documents. -/
def makeRequestLoop (r : Lib) (rule : Rule) (action : String) :
    List (List Value) → List Document → Except SyncErr (List Document)
  | [], reqs => .ok reqs
  | values :: rest, reqs =>
    match getDocID r rule values with
    | .error err => .error err
    | .ok id =>
      let req := requestDoc r rule action id values
      if req.Properties.length > 0 then makeRequestLoop r rule action rest (reqs ++ [req])
      else makeRequestLoop r rule action rest reqs

/-- `River.makeRequest` (insert and delete). -/
def makeRequest (r : Lib) (rule : Rule) (action : String) (rows : List (List Value)) :
    Except SyncErr (List Document) :=
  makeRequestLoop r rule action rows []

/-- `River.makeInsertRequest`. -/
def makeInsertRequest (r : Lib) (rule : Rule) (rows : List (List Value)) :
    Except SyncErr (List Document) :=
  makeRequest r rule InsertAction rows

/-- `River.makeDeleteRequest`. -/
def makeDeleteRequest (r : Lib) (rule : Rule) (rows : List (List Value)) :
    Except SyncErr (List Document) :=
  makeRequest r rule DeleteAction rows

/-- The document `makeUpdateRequest` builds for one before/after pair whose
before-image has identifier `beforeID`. -/
def updateDoc (r : Lib) (rule : Rule) (beforeID : String)
    (beforeValues afterValues : List Value) : Document :=
  makeUpdateReqData r (withIdPrefix rule (NewDocument beforeID)) rule beforeValues afterValues

/-- The loop of `makeUpdateRequest`, which advances two rows at a time
(`rows[i]`, `rows[i+1]`). The length is even when the loop is entered, so the
case of a single remaining row is never reached. -/
def makeUpdateLoop (r : Lib) (rule : Rule) :
    List (List Value) → List Document → Except SyncErr (List Document)
  | beforeValues :: afterValues :: rest, reqs =>
    match getDocID r rule beforeValues with
    | .error err => .error err
    | .ok beforeID =>
      let req := updateDoc r rule beforeID beforeValues afterValues
      if req.Properties.length > 0 then makeUpdateLoop r rule rest (reqs ++ [req])
      else makeUpdateLoop r rule rest reqs
  | _, reqs => .ok reqs

/-- `River.makeUpdateRequest`. -/
def makeUpdateRequest (r : Lib) (rule : Rule) (rows : List (List Value)) :
    Except SyncErr (List Document) :=
  if rows.length % 2 ≠ 0 then .error (.invalidUpdateRows rows.length)
  else makeUpdateLoop r rule rows []

/-! ## The documents of a rows event, row by row -/

/-- The identifier of a document whose `getDocID` result is `body`: the
prefix, ":" and the body when the rule has a prefix, the body otherwise. -/
def docId (rule : Rule) (body : String) : String :=
  if rule.IdPrefix = "" then body else rule.IdPrefix ++ ":" ++ body

/-- The document the insert or delete builder emits for one row: the
document built for the row when its property map is not empty. -/
def rowDocument (r : Lib) (rule : Rule) (action : String) (row : List Value) :
    Option Document :=
  match getDocID r rule row with
  | .error _ => none
  | .ok id =>
    if (requestDoc r rule action id row).Properties = [] then none
    else some (requestDoc r rule action id row)

/-- The before/after pairs of an update rows event. -/
def pairs : List (List Value) → List (List Value × List Value)
  | beforeValues :: afterValues :: rest => (beforeValues, afterValues) :: pairs rest
  | _ => []

/-- The document the update builder emits for one before/after pair. -/
def pairDocument (r : Lib) (rule : Rule) (p : List Value × List Value) : Option Document :=
  match getDocID r rule p.1 with
  | .error _ => none
  | .ok beforeID =>
    if (updateDoc r rule beforeID p.1 p.2).Properties = [] then none
    else some (updateDoc r rule beforeID p.1 p.2)

/-- The target name of a column: the target field of its field mapping when
it has one, the column's own name otherwise. -/
def targetName (rule : Rule) (c : TableColumn) : String :=
  match rule.FieldMapping.find? (fun kv => decide (kv.1 = c.Name)) with
  | some kv => (getFieldParts kv.1 kv.2).2.1
  | none => c.Name

/-! ## The row readers of package `canal` -/

/-- Modelled from the spec: `Table.FindColumn` of the replication source,
the index of the column with the given name. -/
def FindColumn (table : Table) (name : String) : Option Nat :=
  table.Columns.findIdx? (fun c => c.Name = name)

/-- Modelled from the spec: the replication source's helper that reads the
primary-key values of a row (`canal.GetPKValues`); it fails for a table
without primary key and for a row whose length is not the table's. -/
def canalGetPKValues (table : Table) (row : List Value) : Except String (List Value) :=
  if table.PKColumns.length = 0 then .error "table has no PK"
  else if table.Columns.length ≠ row.length then .error "row length differs from the table"
  else .ok (table.PKColumns.map (fun index => row.getD index .nil))

/-- Modelled from the spec: the replication source's helper that reads a
named column's value from a row (`canal.GetColumnValue`); it fails for an
unknown column. -/
def canalGetColumnValue (table : Table) (column : String) (row : List Value) :
    Except String Value :=
  match FindColumn table column with
  | none => .error "table has no such column"
  | some index =>
    match row[index]? with
    | none => .error "row has no such column"
    | some value => .ok value

/-- A table with columns `id`, `name`, `v` and primary key `id`. -/
def exampleTable : Table :=
  ⟨"db", "T", [⟨"id", .NUMBER, [], []⟩, ⟨"name", .STRING, [], []⟩, ⟨"v", .STRING, [], []⟩], [0]⟩

/-- A rule on `exampleTable` that maps `name` to `n` and `v` to `x`, without
ID columns, prefix or column filter. -/
def exampleRule : Rule := ⟨none, "", [("name", "n"), ("v", "x")], exampleTable, fun _ => true⟩

/-- A table whose primary key `k` is a string column. -/
def stringKeyTable : Table :=
  ⟨"db", "T", [⟨"k", .STRING, [], []⟩, ⟨"name", .STRING, [], []⟩], [0]⟩

/-- A rule on `stringKeyTable` without mapping, ID columns, prefix or filter. -/
def stringKeyRule : Rule := ⟨none, "", [], stringKeyTable, fun _ => true⟩

/-- A table with a latitude and a longitude column. -/
def geoTable : Table :=
  ⟨"db", "T", [⟨"id", .NUMBER, [], []⟩, ⟨"la", .STRING, [], []⟩, ⟨"lo", .STRING, [], []⟩], [0]⟩

/-- A rule on `geoTable` that maps `la` and `lo` to the one geo field `loc`. -/
def geoRule : Rule :=
  ⟨none, "", [("la", "loc,geo_lat"), ("lo", "loc,geo_lon")], geoTable, fun _ => true⟩

/-- A `SET` column with 64 tokens: 63 times `x`, then `last`. -/
def set64Column : TableColumn :=
  ⟨"flags", .SET, [], List.replicate 63 "x" ++ ["last"]⟩

/-- A table with a `TINYINT` column `active`. -/
def flagTable : Table :=
  ⟨"db", "T", [⟨"id", .NUMBER, [], []⟩, ⟨"active", .NUMBER, [], []⟩], [0]⟩

/-- A rule on `flagTable` that maps `active` to the numeric-bool field `a`
and lets only that column pass the filter. -/
def flagRule : Rule :=
  ⟨none, "", [("active", "a,numeric_bool")], flagTable, fun name => decide (name = "active")⟩

/-- The imported functions with the row readers above and a JSON decoder
that rejects every text. -/
def canalLib : Lib := ⟨canalGetPKValues, canalGetColumnValue, fun _ => none⟩

/-! ## The sync loop -/

/-- A replication position `mysql.Position`. -/
structure Position where
  Name : String
  Pos : Nat
  deriving DecidableEq

/-- What one `select` of the loop receives: a `posSaver` from the sync
channel together with the reading `now` of the clock taken in that case, a
document slice from the sync channel, a tick, or the cancellation. -/
inductive Select
  | posSaver (pos : Position) (force : Bool) (now : Int)
  | docs (v : List Document)
  | tick
  | done
  deriving DecidableEq

/-- The answers of the collaborators in one iteration, used when they are
called: whether the sink's `IndexOptions` and the position store's `Save`
return an error. -/
structure Answers where
  indexErr : Bool
  saveErr : Bool
  deriving DecidableEq

/-- The observable steps of the loop: a document slice received, a call of
`doBulk` with its argument and whether it returned an error, a call of
`master.Save` with its argument and whether it returned an error. -/
inductive Effect
  | recv (v : List Document)
  | doBulk (reqs : List Document) (err : Bool)
  | save (pos : Position) (err : Bool)
  deriving DecidableEq

/-- The variables of the loop. Times are in nanoseconds. -/
structure LoopState where
  lastSavedTime : Int
  reqs : List Document
  pos : Position
  deriving DecidableEq

/-- The duration `time.Second` in nanoseconds. -/
def Second : Int := 1000000000

/-- The method `Time.Sub`, which saturates at the bounds of `Duration`. -/
def Sub (t u : Int) : Int :=
  let d := t - u
  if d > 2 ^ 63 - 1 then 2 ^ 63 - 1 else if d < -(2 ^ 63) then -(2 ^ 63) else d

/-- The `select` statement of one iteration: the new variables with
`needFlush` and `needSavePos`, or `none` when the loop returns on
cancellation. -/
def selectStep (bulkSize : Int) (s : LoopState) : Select → Option (LoopState × Bool × Bool)
  | .posSaver pos force now =>
    if force = true ∨ Sub now s.lastSavedTime > 3 * Second then
      some (⟨now, s.reqs, pos⟩, true, true)
    else some (s, false, false)
  | .docs v =>
    let reqs := s.reqs ++ v
    some (⟨s.lastSavedTime, reqs, s.pos⟩, decide ((reqs.length : Int) ≥ bulkSize), false)
  | .tick => some (s, true, false)
  | .done => none

/-- `River.doBulk`: whether it returns an error. An empty slice is not sent. -/
def doBulk (ans : Answers) (reqs : List Document) : Bool :=
  if reqs.length = 0 then false else ans.indexErr

/-- The documents a `select` received from the channel, as an effect. -/
def recvEffect : Select → List Effect
  | .docs v => [.recv v]
  | _ => []

/-- The part of an iteration after the `select`: flush, then save. -/
def flushAndSave (ans : Answers) (s : LoopState) (needFlush needSavePos : Bool) :
    Option LoopState × List Effect :=
  if needFlush = true ∧ doBulk ans s.reqs = true then (none, [.doBulk s.reqs true])
  else
    let flushed : List Effect := if needFlush = true then [.doBulk s.reqs false] else []
    let s : LoopState := if needFlush = true then ⟨s.lastSavedTime, [], s.pos⟩ else s
    if needSavePos = true then
      if ans.saveErr = true then (none, flushed ++ [.save s.pos true])
      else (some s, flushed ++ [.save s.pos false])
    else (some s, flushed)

/-- One iteration of the loop of `syncLoop`: the variables for the next
iteration (`none` when the loop returns) and the effects in order. -/
def iteration (bulkSize : Int) (s : LoopState) (sel : Select) (ans : Answers) :
    Option LoopState × List Effect :=
  match selectStep bulkSize s sel with
  | none => (none, [])
  | some (s1, needFlush, needSavePos) =>
    let res := flushAndSave ans s1 needFlush needSavePos
    (res.1, recvEffect sel ++ res.2)

/-- The loop of `syncLoop` on the inputs of its successive iterations: the
effects in order, and the variables when the loop is still running. -/
def syncLoopFrom (bulkSize : Int) : LoopState → List (Select × Answers) →
    Option LoopState × List Effect
  | s, [] => (some s, [])
  | s, (sel, ans) :: rest =>
    match iteration bulkSize s sel ans with
    | (none, eff) => (none, eff)
    | (some s1, eff) =>
      let res := syncLoopFrom bulkSize s1 rest
      (res.1, eff ++ res.2)

/-- The bulk size in effect: 128 when none is configured. -/
def effectiveBulkSize (BulkSize : Int) : Int := if BulkSize = 0 then 128 else BulkSize

/-- `River.syncLoop` with configured `BulkSize`, started at clock reading `start`. -/
def syncLoop (BulkSize : Int) (start : Int) (inputs : List (Select × Answers)) :
    Option LoopState × List Effect :=
  syncLoopFrom (effectiveBulkSize BulkSize) ⟨start, [], ⟨"", 0⟩⟩ inputs

/-- The documents received in a trace, in order. -/
def received : List Effect → List Document
  | [] => []
  | .recv v :: t => v ++ received t
  | _ :: t => received t

/-- The documents passed to `doBulk` calls that returned no error, in order. -/
def sunk : List Effect → List Document
  | [] => []
  | .doBulk reqs false :: t => reqs ++ sunk t
  | _ :: t => sunk t

/-- Whether a trace holds a call of `Save`. -/
def hasSave : List Effect → Bool
  | [] => false
  | .save _ _ :: _ => true
  | _ :: t => hasSave t

/-- The clock readings taken in a run, in order. -/
def clockReadings : List (Select × Answers) → List Int
  | [] => []
  | (.posSaver _ _ now, _) :: rest => now :: clockReadings rest
  | _ :: rest => clockReadings rest

/-- The clock reading of a non-forced `posSaver` whose iteration, with
effects `eff`, calls `Save`. -/
def nonForcedSave (sel : Select) (eff : List Effect) : List Int :=
  match sel with
  | .posSaver _ false now => if hasSave eff = true then [now] else []
  | _ => []

/-- The clock readings of the non-forced `posSaver` items of a run in whose
iteration the loop calls `Save`, in order. -/
def nonForcedSaves (bulkSize : Int) : LoopState → List (Select × Answers) → List Int
  | _, [] => []
  | s, (sel, ans) :: rest =>
    let res := iteration bulkSize s sel ans
    match res.1 with
    | none => nonForcedSave sel res.2
    | some s1 => nonForcedSave sel res.2 ++ nonForcedSaves bulkSize s1 rest

/-! ## Folds -/

theorem foldl_fixed {α β : Type} (f : β → α → β) (l : List α) (b : β)
    (h : ∀ x ∈ l, ∀ acc, f acc x = acc) : l.foldl f b = b := by
  induction l generalizing b with
  | nil => rfl
  | cons x t ih =>
    rw [List.foldl_cons, h x (List.mem_cons_self _ _)]
    exact ih b (fun y hy => h y (List.mem_cons_of_mem _ hy))

theorem foldl_filter_fixed {α β : Type} (f : β → α → β) (p : α → Bool) (l : List α) (b : β)
    (h : ∀ x ∈ l, p x = false → ∀ acc, f acc x = acc) :
    l.foldl f b = (l.filter p).foldl f b := by
  induction l generalizing b with
  | nil => rfl
  | cons x t ih =>
    have ht : ∀ y ∈ t, p y = false → ∀ acc, f acc y = acc :=
      fun y hy => h y (List.mem_cons_of_mem _ hy)
    cases hp : p x with
    | true => rw [List.filter_cons_of_pos hp, List.foldl_cons, List.foldl_cons]; exact ih _ ht
    | false =>
      rw [List.filter_cons_of_neg (by simp [hp]), List.foldl_cons, h x (List.mem_cons_self _ _) hp]
      exact ih _ ht

theorem foldl_preserves {α β : Type} (P : β → Prop) (f : β → α → β) (l : List α) (b : β)
    (h0 : P b) (hstep : ∀ acc x, P acc → P (f acc x)) : P (l.foldl f b) := by
  induction l generalizing b with
  | nil => exact h0
  | cons x t ih => exact ih _ (hstep b x h0)

theorem foldl_congr_fun {α β : Type} (f g : β → α → β) (l : List α) (b : β)
    (h : ∀ acc, ∀ x ∈ l, f acc x = g acc x) : l.foldl f b = l.foldl g b := by
  induction l generalizing b with
  | nil => rfl
  | cons x t ih =>
    rw [List.foldl_cons, List.foldl_cons, h b x (List.mem_cons_self _ _)]
    exact ih _ (fun acc y hy => h acc y (List.mem_cons_of_mem _ hy))

theorem foldl_preserves_mem {α β : Type} (P : β → Prop) (f : β → α → β) (l : List α) (b : β)
    (h0 : P b) (hstep : ∀ acc, ∀ x ∈ l, P acc → P (f acc x)) : P (l.foldl f b) := by
  induction l generalizing b with
  | nil => exact h0
  | cons x t ih =>
    exact ih _ (hstep b x (List.mem_cons_self _ _) h0)
      (fun acc y hy => hstep acc y (List.mem_cons_of_mem _ hy))

theorem foldl_establishes {α β : Type} (Q : β → Prop) (f : β → α → β) (l : List α) (b : β)
    (x : α) (hx : x ∈ l) (hest : ∀ acc, Q (f acc x)) (hpres : ∀ acc y, Q acc → Q (f acc y)) :
    Q (l.foldl f b) := by
  induction l generalizing b with
  | nil => simp at hx
  | cons y t ih =>
    rw [List.foldl_cons]
    rcases List.mem_cons.mp hx with h | h
    · subst h
      exact foldl_preserves Q f t _ (hest b) hpres
    · exact ih _ h

/-! ## The sync loop: flush before save -/

theorem received_append (a b : List Effect) : received (a ++ b) = received a ++ received b := by
  induction a with
  | nil => rfl
  | cons e t ih => cases e <;> simp [received, ih]

theorem sunk_append (a b : List Effect) : sunk (a ++ b) = sunk a ++ sunk b := by
  induction a with
  | nil => rfl
  | cons e t ih =>
    cases e with
    | recv v => simp [sunk, ih]
    | doBulk reqs err => cases err <;> simp [sunk, ih]
    | save pos err => simp [sunk, ih]

/-- A `select` that asks for a save asks for a flush, receives no document
and leaves the buffer as it is. -/
theorem selectStep_save (bulkSize : Int) (s s1 : LoopState) (sel : Select) (needFlush : Bool)
    (h : selectStep bulkSize s sel = some (s1, needFlush, true)) :
    needFlush = true ∧ s1.reqs = s.reqs ∧ recvEffect sel = [] := by
  cases sel with
  | posSaver p force now =>
    simp only [selectStep] at h
    split at h
    · simp only [Option.some.injEq, Prod.mk.injEq] at h
      obtain ⟨h1, h2, -⟩ := h
      subst h1
      exact ⟨h2.symm, rfl, rfl⟩
    · simp at h
  | docs v => simp [selectStep] at h
  | tick => simp [selectStep] at h
  | done => simp [selectStep] at h

/-- The shape of the flush-and-save part when it calls `Save`. -/
theorem flushAndSave_save (ans : Answers) (s : LoopState) (needFlush needSavePos : Bool)
    (pos : Position) (err : Bool)
    (h : Effect.save pos err ∈ (flushAndSave ans s needFlush needSavePos).2) :
    needSavePos = true ∧
    (needFlush = true →
      (flushAndSave ans s needFlush needSavePos).2 = [.doBulk s.reqs false, .save pos err] ∧
      ∀ s1, (flushAndSave ans s needFlush needSavePos).1 = some s1 → s1.reqs = []) := by
  cases needFlush <;> cases needSavePos <;> cases h1 : doBulk ans s.reqs <;>
    cases h2 : ans.saveErr <;> simp [flushAndSave, h1, h2] at h ⊢ <;> simp [h]

/-- The effects of an iteration that calls `Save`. -/
theorem iteration_save (bulkSize : Int) (s : LoopState) (sel : Select) (ans : Answers)
    (pos : Position) (err : Bool)
    (h : Effect.save pos err ∈ (iteration bulkSize s sel ans).2) :
    (iteration bulkSize s sel ans).2 = [.doBulk s.reqs false, .save pos err] ∧
    ∀ s1, (iteration bulkSize s sel ans).1 = some s1 → s1.reqs = [] := by
  unfold iteration at h ⊢
  cases hsel : selectStep bulkSize s sel with
  | none => simp [hsel] at h
  | some res =>
    obtain ⟨s1, needFlush, needSavePos⟩ := res
    simp only [hsel] at h ⊢
    have hmem : Effect.save pos err ∈ (flushAndSave ans s1 needFlush needSavePos).2 := by
      cases sel <;> simpa [recvEffect] using h
    obtain ⟨hs, hrest⟩ := flushAndSave_save ans s1 needFlush needSavePos pos err hmem
    subst hs
    obtain ⟨hf, hreqs, hrecv⟩ := selectStep_save bulkSize s s1 sel needFlush hsel
    obtain ⟨he, hn⟩ := hrest hf
    simp only [hrecv, List.nil_append, he, hreqs]
    exact ⟨trivial, hn⟩

/-- A failed sink write ends the iteration: the loop returns and `Save` is not called. -/
theorem iteration_doBulk_err (bulkSize : Int) (s : LoopState) (sel : Select) (ans : Answers)
    (reqs : List Document)
    (h : Effect.doBulk reqs true ∈ (iteration bulkSize s sel ans).2) :
    (iteration bulkSize s sel ans).1 = none ∧
    ∀ pos err, Effect.save pos err ∉ (iteration bulkSize s sel ans).2 := by
  unfold iteration at h ⊢
  cases hsel : selectStep bulkSize s sel with
  | none => simp [hsel] at h
  | some res =>
    obtain ⟨s1, needFlush, needSavePos⟩ := res
    simp only [hsel] at h ⊢
    have hmem : Effect.doBulk reqs true ∈ (flushAndSave ans s1 needFlush needSavePos).2 := by
      cases sel <;> simpa [recvEffect] using h
    have key : (flushAndSave ans s1 needFlush needSavePos).1 = none ∧
        ∀ pos err, Effect.save pos err ∉ (flushAndSave ans s1 needFlush needSavePos).2 := by
      revert hmem
      cases needFlush <;> cases needSavePos <;> cases h1 : doBulk ans s1.reqs <;>
        cases h2 : ans.saveErr <;> simp [flushAndSave, h1, h2]
    refine ⟨key.1, ?_⟩
    intro pos err hm
    apply key.2 pos err
    cases sel <;> simpa [recvEffect] using hm

/-- After a `select` the buffer holds what it held and what was received. -/
theorem selectStep_reqs (bulkSize : Int) (s s1 : LoopState) (sel : Select)
    (needFlush needSavePos : Bool)
    (h : selectStep bulkSize s sel = some (s1, needFlush, needSavePos)) :
    s1.reqs = s.reqs ++ received (recvEffect sel) ∧ sunk (recvEffect sel) = [] := by
  cases sel with
  | posSaver p force now =>
    simp only [selectStep] at h
    split at h <;> simp only [Option.some.injEq, Prod.mk.injEq] at h <;>
      obtain ⟨h1, -, -⟩ := h <;> subst h1 <;> simp [recvEffect, received, sunk]
  | docs v =>
    simp only [selectStep, Option.some.injEq, Prod.mk.injEq] at h
    obtain ⟨h1, -, -⟩ := h
    subst h1
    simp [recvEffect, received, sunk]
  | tick =>
    simp only [selectStep, Option.some.injEq, Prod.mk.injEq] at h
    obtain ⟨h1, -, -⟩ := h
    subst h1
    simp [recvEffect, received, sunk]
  | done => simp [selectStep] at h

/-- A flush-and-save part after which the loop goes on has passed to the
sink what left the buffer. -/
theorem flushAndSave_conserves (ans : Answers) (s s1 : LoopState) (needFlush needSavePos : Bool)
    (h : (flushAndSave ans s needFlush needSavePos).1 = some s1) :
    sunk (flushAndSave ans s needFlush needSavePos).2 ++ s1.reqs = s.reqs ∧
    received (flushAndSave ans s needFlush needSavePos).2 = [] := by
  revert h
  cases needFlush <;> cases needSavePos <;> cases h1 : doBulk ans s.reqs <;>
    cases h2 : ans.saveErr <;> simp [flushAndSave, h1, h2, sunk, received] <;>
    intro h <;> subst h <;> rfl

/-- An iteration after which the loop goes on has passed to the sink what
left the buffer. -/
theorem iteration_conserves (bulkSize : Int) (s s1 : LoopState) (sel : Select) (ans : Answers)
    (h : (iteration bulkSize s sel ans).1 = some s1) :
    sunk (iteration bulkSize s sel ans).2 ++ s1.reqs =
      s.reqs ++ received (iteration bulkSize s sel ans).2 := by
  unfold iteration at h ⊢
  cases hsel : selectStep bulkSize s sel with
  | none => simp [hsel] at h
  | some res =>
    obtain ⟨s0, needFlush, needSavePos⟩ := res
    simp only [hsel] at h ⊢
    obtain ⟨h1, h2⟩ := selectStep_reqs bulkSize s s0 sel needFlush needSavePos hsel
    obtain ⟨h3, h4⟩ := flushAndSave_conserves ans s0 s1 needFlush needSavePos h
    rw [sunk_append, received_append, h2, h4, List.nil_append, h3, h1, List.append_nil]

/-- In a run of the loop, what was received before a call of `Save` has been
passed to the sink before, together with what the buffer held at the start. -/
theorem syncLoopFrom_save (bulkSize : Int) (inputs : List (Select × Answers)) :
    ∀ (s : LoopState) (pre post : List Effect) (pos : Position) (err : Bool),
      (syncLoopFrom bulkSize s inputs).2 = pre ++ Effect.save pos err :: post →
      sunk pre = s.reqs ++ received pre := by
  induction inputs with
  | nil =>
    intro s pre post pos err h
    simp [syncLoopFrom] at h
  | cons inp rest ih =>
    intro s pre post pos err h
    obtain ⟨sel, ans⟩ := inp
    -- the effects of the first iteration and of the rest
    have hsplit : ∃ tail, (syncLoopFrom bulkSize s ((sel, ans) :: rest)).2 =
        (iteration bulkSize s sel ans).2 ++ tail ∧
        (tail ≠ [] → ∃ s1, (iteration bulkSize s sel ans).1 = some s1 ∧
          tail = (syncLoopFrom bulkSize s1 rest).2) := by
      simp only [syncLoopFrom]
      rcases hit : iteration bulkSize s sel ans with ⟨_ | s1, eff⟩
      · exact ⟨[], by simp, fun hne => absurd rfl hne⟩
      · exact ⟨(syncLoopFrom bulkSize s1 rest).2, rfl, fun _ => ⟨s1, rfl, rfl⟩⟩
    obtain ⟨tail, htr, htail⟩ := hsplit
    rw [htr] at h
    rcases List.append_eq_append_iff.mp h with ⟨a, hpre, ha⟩ | ⟨c, heff, hc⟩
    · -- the save lies in the rest of the run
      have hne : tail ≠ [] := by rw [ha]; simp
      obtain ⟨s1, hs1, ht⟩ := htail hne
      rw [ht] at ha
      have h1 := ih s1 a post pos err ha
      have h2 := iteration_conserves bulkSize s s1 sel ans hs1
      rw [hpre, sunk_append, received_append, h1, ← List.append_assoc, h2, List.append_assoc]
    · cases c with
      | nil =>
        simp only [List.append_nil, List.nil_append] at heff hc
        have hne : tail ≠ [] := by rw [← hc]; simp
        obtain ⟨s1, hs1, ht⟩ := htail hne
        have h1 := ih s1 [] post pos err (by rw [← ht, ← hc]; rfl)
        have h2 := iteration_conserves bulkSize s s1 sel ans hs1
        simp only [sunk, received, List.append_nil] at h1
        rw [← h1, List.append_nil] at h2
        rw [← heff, h2]
      | cons e c1 =>
        simp only [List.cons_append, List.cons.injEq] at hc
        obtain ⟨he, -⟩ := hc
        subst he
        have hmem : Effect.save pos err ∈ (iteration bulkSize s sel ans).2 := by
          rw [heff]; simp
        obtain ⟨hshape, -⟩ := iteration_save bulkSize s sel ans pos err hmem
        rw [hshape] at heff
        cases pre with
        | nil => simp at heff
        | cons x pre1 =>
          cases pre1 with
          | nil =>
            simp only [List.cons_append, List.nil_append, List.cons.injEq] at heff
            rw [← heff.1]
            simp [sunk, received]
          | cons y pre2 => simp at heff

/-- C1. In every iteration, from any state of the loop, `Save` is called only
right after `doBulk` was called on the whole buffer in that iteration and
returned no error, and the buffer is empty afterwards; when `doBulk` returns
an error the loop returns and `Save` is not called. Hence in every run of
`syncLoop`, the documents received before a call of `Save` are exactly the
documents passed to successful `doBulk` calls before it. -/
theorem C1_save_only_after_flush (BulkSize start : Int) (inputs : List (Select × Answers)) :
    (∀ (bulkSize : Int) (s : LoopState) (sel : Select) (ans : Answers) (pos : Position)
        (err : Bool), Effect.save pos err ∈ (iteration bulkSize s sel ans).2 →
        (iteration bulkSize s sel ans).2 = [.doBulk s.reqs false, .save pos err] ∧
        ∀ s1, (iteration bulkSize s sel ans).1 = some s1 → s1.reqs = []) ∧
    (∀ (bulkSize : Int) (s : LoopState) (sel : Select) (ans : Answers) (reqs : List Document),
        Effect.doBulk reqs true ∈ (iteration bulkSize s sel ans).2 →
        (iteration bulkSize s sel ans).1 = none ∧
        ∀ pos err, Effect.save pos err ∉ (iteration bulkSize s sel ans).2) ∧
    (∀ (pre post : List Effect) (pos : Position) (err : Bool),
        (syncLoop BulkSize start inputs).2 = pre ++ Effect.save pos err :: post →
        sunk pre = received pre) := by
  refine ⟨iteration_save, iteration_doBulk_err, ?_⟩
  intro pre post pos err h
  have := syncLoopFrom_save (effectiveBulkSize BulkSize) inputs ⟨start, [], ⟨"", 0⟩⟩
    pre post pos err h
  simpa using this

/-- C1 at a run that receives one document and then a forced position. -/
theorem C1_save_only_after_flush_witness :
    sunk [Effect.recv [⟨"7", [("n", .str "a")]⟩], .doBulk [⟨"7", [("n", .str "a")]⟩] false] =
      received [Effect.recv [⟨"7", [("n", .str "a")]⟩], .doBulk [⟨"7", [("n", .str "a")]⟩] false] :=
  (C1_save_only_after_flush 0 0
    [(.docs [⟨"7", [("n", .str "a")]⟩], ⟨false, false⟩),
     (.posSaver ⟨"bin.000002", 4⟩ true 5, ⟨false, false⟩)]).2.2
    [Effect.recv [⟨"7", [("n", .str "a")]⟩], .doBulk [⟨"7", [("n", .str "a")]⟩] false] []
    ⟨"bin.000002", 4⟩ false (by decide)

/-! ## The update builder skips unchanged columns -/

theorem updateColumn_unchanged (r : Lib) (rule : Rule) (before after : List Value)
    (i : Nat) (b a : Value) (hb : before[i]? = some b) (ha : after[i]? = some a)
    (heq : DeepEqual b a = true) (req : Document) (c : TableColumn) :
    updateColumn r rule before after req (i, c) = req := by
  simp only [updateColumn, hb, ha, heq, if_true]
  split <;> rfl

theorem mem_enum_lookup {α : Type} (l : List α) (i : Nat) (x : α) (h : (i, x) ∈ l.enum) :
    l[i]? = some x := by
  exact List.mk_mem_enum_iff_getElem?.mp h

theorem updateColumn_skip (r : Lib) (rule : Rule) (before after : List Value)
    (i : Nat) (c : TableColumn) (req : Document)
    (h : rule.CheckFilter c.Name = true → ∀ b a, before[i]? = some b → after[i]? = some a →
      DeepEqual b a = true) :
    updateColumn r rule before after req (i, c) = req := by
  simp only [updateColumn]
  cases hf : rule.CheckFilter c.Name with
  | false => simp
  | true =>
    simp only [Bool.not_true, Bool.false_eq_true, if_false]
    cases hb : before[i]? with
    | none => rfl
    | some b =>
      cases ha : after[i]? with
      | none => rfl
      | some a => simp [h hf b a hb ha]

theorem makeUpdateLoop_pair (r : Lib) (rule : Rule) (before after : List Value) (beforeID : String)
    (hid : getDocID r rule before = .ok beforeID) :
    makeUpdateRequest r rule [before, after] =
      .ok (if (updateDoc r rule beforeID before after).Properties.length > 0
        then [updateDoc r rule beforeID before after] else []) := by
  have hlen : ¬ ([before, after].length % 2 ≠ 0) := by simp
  simp only [makeUpdateRequest, if_neg hlen, makeUpdateLoop, hid]
  by_cases hp : (updateDoc r rule beforeID before after).Properties.length > 0
  · simp [hp, makeUpdateLoop]
  · simp [hp, makeUpdateLoop]

/-- C2. A column whose before and after raw values are deeply equal writes no
field in `makeUpdateReqData`: its loop body returns the document as it is,
and the result is the one of the loop run over the columns other than `i`.
When every column that passes the filter and is within the arity of both rows
is unchanged, the document is returned as it is, and `makeUpdateRequest`
returns no document for the pair. -/
theorem C2_unchanged_column_skipped (r : Lib) (rule : Rule) (before after : List Value) :
    (∀ (i : Nat) (b a : Value), before[i]? = some b → after[i]? = some a →
        DeepEqual b a = true →
        (∀ req c, updateColumn r rule before after req (i, c) = req) ∧
        ∀ req, makeUpdateReqData r req rule before after =
          (rule.TableInfo.Columns.enum.filter (fun p => decide (p.1 ≠ i))).foldl
            (updateColumn r rule before after) req) ∧
    ((∀ (i : Nat) (c : TableColumn) (b a : Value), rule.TableInfo.Columns[i]? = some c →
        rule.CheckFilter c.Name = true → before[i]? = some b → after[i]? = some a →
        DeepEqual b a = true) →
      (∀ req, makeUpdateReqData r req rule before after = req) ∧
      ∀ beforeID, getDocID r rule before = .ok beforeID →
        makeUpdateRequest r rule [before, after] = .ok []) := by
  constructor
  · intro i b a hb ha heq
    refine ⟨fun req c => updateColumn_unchanged r rule before after i b a hb ha heq req c, ?_⟩
    intro req
    unfold makeUpdateReqData
    apply foldl_filter_fixed
    intro x _ hp acc
    obtain ⟨j, c⟩ := x
    have hj : j = i := by simpa using hp
    subst hj
    exact updateColumn_unchanged r rule before after j b a hb ha heq acc c
  · intro hall
    have hfix : ∀ req, makeUpdateReqData r req rule before after = req := by
      intro req
      unfold makeUpdateReqData
      apply foldl_fixed
      intro x hx acc
      obtain ⟨j, c⟩ := x
      apply updateColumn_skip
      intro hf b a hb ha
      exact hall j c b a (mem_enum_lookup _ j c hx) hf hb ha
    refine ⟨hfix, ?_⟩
    intro beforeID hid
    rw [makeUpdateLoop_pair r rule before after beforeID hid]
    simp [updateDoc, hfix, withIdPrefix, NewDocument]
    split <;> rfl

/-- C2 at an update pair whose two rows are the same. -/
theorem C2_unchanged_column_skipped_witness :
    (∀ req, makeUpdateReqData canalLib req exampleRule [.int .int64 7, .str "a", .nil]
      [.int .int64 7, .str "a", .nil] = req) ∧
    makeUpdateRequest canalLib exampleRule
      [[.int .int64 7, .str "a", .nil], [.int .int64 7, .str "a", .nil]] = .ok [] :=
  ⟨((C2_unchanged_column_skipped canalLib exampleRule [.int .int64 7, .str "a", .nil]
      [.int .int64 7, .str "a", .nil]).2
      (fun i _ b a _ _ hb ha => by
        rw [hb] at ha
        simp only [Option.some.injEq] at ha
        simp [DeepEqual, ha])).1,
   ((C2_unchanged_column_skipped canalLib exampleRule [.int .int64 7, .str "a", .nil]
      [.int .int64 7, .str "a", .nil]).2
      (fun i _ b a _ _ hb ha => by
        rw [hb] at ha
        simp only [Option.some.injEq] at ha
        simp [DeepEqual, ha])).2 "7" (by decide)⟩

/-! ## The identifier of a row -/

theorem writeIDs_go (rest : List Value) (i : Nat) (acc : String)
    (h : ∀ v ∈ rest, v ≠ Value.nil) :
    writeIDs rest i acc ":" = .ok (String.intercalate.go acc ":" (rest.map Sprint)) := by
  induction rest generalizing i acc with
  | nil => rfl
  | cons v t ih =>
    have hv : v ≠ Value.nil := h v (List.mem_cons_self _ _)
    simp only [writeIDs, if_neg hv, List.map_cons, String.intercalate.go]
    rw [ih (i + 1) _ (fun w hw => h w (List.mem_cons_of_mem _ hw)), String.append_assoc]

theorem writeIDs_ok (ids : List Value) (h : ∀ v ∈ ids, v ≠ Value.nil) :
    writeIDs ids 0 "" "" = .ok (":".intercalate (ids.map Sprint)) := by
  cases ids with
  | nil => rfl
  | cons v t =>
    have hv : v ≠ Value.nil := h v (List.mem_cons_self _ _)
    simp only [writeIDs, if_neg hv, List.map_cons, String.intercalate]
    rw [writeIDs_go t 1 _ (fun w hw => h w (List.mem_cons_of_mem _ hw))]
    simp

theorem writeIDs_nil (ids : List Value) (i k : Nat) (buf sep : String)
    (hi : ids[i]? = some Value.nil) (hlt : ∀ j < i, ids[j]? ≠ some Value.nil) :
    writeIDs ids k buf sep = .error (.nilID (k + i)) := by
  induction ids generalizing i k buf sep with
  | nil => simp at hi
  | cons v t ih =>
    cases i with
    | zero =>
      simp only [List.getElem?_cons_zero, Option.some.injEq] at hi
      simp [writeIDs, hi]
    | succ n =>
      have hv : v ≠ Value.nil := by
        intro hv
        exact hlt 0 (Nat.succ_pos n) (by simp [hv])
      simp only [writeIDs, if_neg hv]
      rw [ih n (k + 1) _ ":" (by simpa using hi)
        (fun j hj => by simpa using hlt (j + 1) (Nat.succ_lt_succ hj))]
      congr 2
      omega

theorem writeIDs_error (ids : List Value) (k : Nat) (buf sep : String) (e : SyncErr)
    (h : writeIDs ids k buf sep = .error e) : Value.nil ∈ ids ∧ ∃ i, e = .nilID i := by
  induction ids generalizing k buf sep with
  | nil => simp [writeIDs] at h
  | cons v t ih =>
    simp only [writeIDs] at h
    split at h
    · rename_i hv
      simp only [Except.error.injEq] at h
      exact ⟨by simp [hv], k, h.symm⟩
    · obtain ⟨h1, h2⟩ := ih _ _ _ h
      exact ⟨List.mem_cons_of_mem _ h1, h2⟩

theorem idColumnValues_eq (r : Lib) (rule : Rule) (row : List Value) (columns : List String)
    (ids : List Value) :
    idColumnValues r rule row columns ids =
      (columns.mapM (fun column => r.GetColumnValue rule.TableInfo column row)).map
        (fun vs => ids ++ vs) := by
  induction columns generalizing ids with
  | nil =>
    rw [List.mapM_nil]
    simp [idColumnValues, Except.map, pure, Except.pure]
  | cons c t ih =>
    rw [List.mapM_cons]
    simp only [idColumnValues]
    cases hc : r.GetColumnValue rule.TableInfo c row with
    | error e => simp [Except.map, bind, Except.bind]
    | ok v =>
      simp only [ih, bind, Except.bind]
      cases List.mapM (fun column => r.GetColumnValue rule.TableInfo column row) t with
      | error e => simp [Except.map]
      | ok vs => simp [Except.map, pure, Except.pure]

theorem getDocID_not_invalid (r : Lib) (rule : Rule) (row : List Value) (n : Nat) :
    getDocID r rule row ≠ .error (.invalidUpdateRows n) := by
  intro h
  simp only [getDocID] at h
  split at h
  · simp at h
  · obtain ⟨-, i, hi⟩ := writeIDs_error _ _ _ _ _ h
    simp at hi

/-- C3. The identifier components are the primary-key values when the rule
declares no ID columns, and otherwise the values of the ID columns read in
declared order, the first failing read failing the whole. `getDocID` fails
exactly when reading the components fails or a component is nil; it then
returns the read error or the index of the first nil component. Otherwise it
returns the default string forms of the components joined by ":". -/
theorem C3_getDocID (r : Lib) (rule : Rule) (row : List Value) :
    (rule.ID = none → idValues r rule row = r.GetPKValues rule.TableInfo row) ∧
    (∀ columns, rule.ID = some columns → idValues r rule row =
      columns.mapM (fun column => r.GetColumnValue rule.TableInfo column row)) ∧
    (∀ err, idValues r rule row = .error err → getDocID r rule row = .error (.lookup err)) ∧
    (∀ ids, idValues r rule row = .ok ids →
      (∀ i, ids[i]? = some Value.nil → (∀ j < i, ids[j]? ≠ some Value.nil) →
        getDocID r rule row = .error (.nilID i)) ∧
      ((∀ v ∈ ids, v ≠ Value.nil) →
        getDocID r rule row = .ok (":".intercalate (ids.map Sprint)))) ∧
    ((∃ e, getDocID r rule row = .error e) ↔
      ((∃ err, idValues r rule row = .error err) ∨
        ∃ ids, idValues r rule row = .ok ids ∧ Value.nil ∈ ids)) := by
  refine ⟨?_, ?_, ?_, ?_, ?_⟩
  · intro h
    simp [idValues, h]
  · intro columns h
    simp only [idValues, h, idColumnValues_eq]
    cases List.mapM (fun column => r.GetColumnValue rule.TableInfo column row) columns <;>
      simp [Except.map]
  · intro err h
    simp [getDocID, h]
  · intro ids h
    constructor
    · intro i hi hlt
      simp only [getDocID, h]
      rw [writeIDs_nil ids i 0 "" "" hi hlt, Nat.zero_add]
    · intro hall
      simp only [getDocID, h]
      exact writeIDs_ok ids hall
  · constructor
    · rintro ⟨e, he⟩
      simp only [getDocID] at he
      cases hv : idValues r rule row with
      | error err => exact Or.inl ⟨err, rfl⟩
      | ok ids =>
        rw [hv] at he
        exact Or.inr ⟨ids, rfl, (writeIDs_error _ _ _ _ _ he).1⟩
    · rintro (⟨err, h⟩ | ⟨ids, h, hmem⟩)
      · exact ⟨.lookup err, by simp [getDocID, h]⟩
      · simp only [getDocID, h]
        cases hw : writeIDs ids 0 "" "" with
        | error e => exact ⟨e, rfl⟩
        | ok s =>
          exfalso
          -- a nil component has a first occurrence
          obtain ⟨i, hi⟩ : ∃ i, ids[i]? = some Value.nil := List.mem_iff_getElem?.mp hmem
          have hex : ∃ i, ids[i]? = some Value.nil := ⟨i, hi⟩
          classical
          have hmin := Nat.find_spec hex
          have hlt : ∀ j < Nat.find hex, ids[j]? ≠ some Value.nil :=
            fun j hj => Nat.find_min hex hj
          rw [writeIDs_nil ids _ 0 "" "" hmin hlt] at hw
          simp at hw

/-- C3 at a row whose primary key is 7. -/
theorem C3_getDocID_witness :
    getDocID canalLib exampleRule [.int .int64 7, .str "a", .nil] =
      .ok (":".intercalate ([Value.int .int64 7].map Sprint)) :=
  ((C3_getDocID canalLib exampleRule [.int .int64 7, .str "a", .nil]).2.2.2.1
    [.int .int64 7] (by decide)).2 (by decide)

/-! ## The builders keep the identifier -/

theorem length_eq_zero_iff (s : String) : s.length = 0 ↔ s = "" := by
  constructor
  · intro h
    apply String.ext
    exact List.length_eq_zero.mp h
  · rintro rfl
    rfl

theorem withIdPrefix_id (rule : Rule) (req : Document) :
    (withIdPrefix rule req).Id = docId rule req.Id := by
  unfold withIdPrefix docId
  by_cases h : rule.IdPrefix = ""
  · simp [h]
  · have : rule.IdPrefix.length > 0 := by
      have := (length_eq_zero_iff rule.IdPrefix).not.mpr h
      omega
    simp [h, this]

theorem withIdPrefix_properties (rule : Rule) (req : Document) :
    (withIdPrefix rule req).Properties = req.Properties := by
  unfold withIdPrefix
  split <;> rfl

theorem set_id (d : Document) (k : String) (v : Value) : (d.Set k v).Id = d.Id := rfl

theorem setNumericBool_id (req : Document) (k : String) (v : Value) :
    (setNumericBool req k v).Id = req.Id := by
  unfold setNumericBool
  repeat (first | rfl | split)

theorem setGeo_id (st : MapState) (k t : String) (v : Value) :
    (setGeo st k t v).req.Id = st.req.Id := by
  unfold setGeo
  simp only
  repeat (first | rfl | split)

theorem deleteMapping_id (c : TableColumn) (st : Document × Bool) (kv : String × String) :
    (deleteMapping c st kv).1.Id = st.1.Id := by
  unfold deleteMapping
  simp only
  repeat (first | rfl | split)

theorem insertMapping_id (r : Lib) (c : TableColumn) (raw : Value) (st : MapState)
    (kv : String × String) : (insertMapping r c raw st kv).req.Id = st.req.Id := by
  unfold insertMapping
  simp only
  repeat (first | rfl | exact setNumericBool_id _ _ _ | exact setGeo_id _ _ _ _ | split)

theorem updateMapping_id (r : Lib) (c : TableColumn) (raw : Value) (st : MapState)
    (kv : String × String) : (updateMapping r c raw st kv).req.Id = st.req.Id := by
  unfold updateMapping
  simp only
  repeat (first | rfl | exact setNumericBool_id _ _ _ | exact setGeo_id _ _ _ _ | split)

theorem deleteColumn_id (rule : Rule) (values : List Value) (req : Document)
    (ic : Nat × TableColumn) : (deleteColumn rule values req ic).Id = req.Id := by
  obtain ⟨i, c⟩ := ic
  have h := foldl_preserves (fun st : Document × Bool => st.1.Id = req.Id) (deleteMapping c)
    rule.FieldMapping (req, false) rfl
    (fun acc x hacc => (deleteMapping_id c acc x).trans hacc)
  simp only [deleteColumn]
  repeat (first | rfl | exact h | split)

theorem insertColumn_id (r : Lib) (rule : Rule) (values : List Value) (req : Document)
    (ic : Nat × TableColumn) : (insertColumn r rule values req ic).Id = req.Id := by
  obtain ⟨i, c⟩ := ic
  have h := fun raw => foldl_preserves (fun st : MapState => st.req.Id = req.Id)
    (insertMapping r c raw) rule.FieldMapping ⟨req, false, ⟨none, none⟩⟩ rfl
    (fun acc x hacc => (insertMapping_id r c raw acc x).trans hacc)
  simp only [insertColumn]
  repeat (first | rfl | exact h _ | split)

theorem updateColumn_id (r : Lib) (rule : Rule) (before after : List Value) (req : Document)
    (ic : Nat × TableColumn) : (updateColumn r rule before after req ic).Id = req.Id := by
  obtain ⟨i, c⟩ := ic
  have h := fun raw => foldl_preserves (fun st : MapState => st.req.Id = req.Id)
    (updateMapping r c raw) rule.FieldMapping ⟨req, false, ⟨none, none⟩⟩ rfl
    (fun acc x hacc => (updateMapping_id r c raw acc x).trans hacc)
  simp only [updateColumn]
  repeat (first | rfl | exact h _ | split)

theorem makeDeleteReqData_id (req : Document) (rule : Rule) (values : List Value) :
    (makeDeleteReqData req rule values).Id = req.Id :=
  foldl_preserves (fun d : Document => d.Id = req.Id) _ _ _ rfl
    (fun acc x hacc => (deleteColumn_id rule values acc x).trans hacc)

theorem makeInsertReqData_id (r : Lib) (req : Document) (rule : Rule) (values : List Value) :
    (makeInsertReqData r req rule values).Id = req.Id :=
  foldl_preserves (fun d : Document => d.Id = req.Id) _ _ _ rfl
    (fun acc x hacc => (insertColumn_id r rule values acc x).trans hacc)

theorem makeUpdateReqData_id (r : Lib) (req : Document) (rule : Rule)
    (before after : List Value) : (makeUpdateReqData r req rule before after).Id = req.Id :=
  foldl_preserves (fun d : Document => d.Id = req.Id) _ _ _ rfl
    (fun acc x hacc => (updateColumn_id r rule before after acc x).trans hacc)

theorem requestDoc_id (r : Lib) (rule : Rule) (action id : String) (values : List Value) :
    (requestDoc r rule action id values).Id = docId rule id := by
  unfold requestDoc
  simp only
  split
  · rw [makeDeleteReqData_id, withIdPrefix_id]; rfl
  · rw [makeInsertReqData_id, withIdPrefix_id]; rfl

theorem updateDoc_id (r : Lib) (rule : Rule) (beforeID : String) (before after : List Value) :
    (updateDoc r rule beforeID before after).Id = docId rule beforeID := by
  unfold updateDoc
  rw [makeUpdateReqData_id, withIdPrefix_id]; rfl

/-! ## The request loops -/

theorem length_pos_iff_ne_nil {α : Type} (l : List α) : l.length > 0 ↔ l ≠ [] := by
  cases l <;> simp

/-- The loop of `makeRequest` returns the documents of the rows in order, or
the error of the first row whose identifier cannot be derived. -/
theorem makeRequestLoop_eq (r : Lib) (rule : Rule) (action : String) (rows : List (List Value))
    (reqs : List Document) :
    (∀ docs, makeRequestLoop r rule action rows reqs = .ok docs ↔
      ((∀ row ∈ rows, ∃ id, getDocID r rule row = .ok id) ∧
        docs = reqs ++ rows.filterMap (rowDocument r rule action))) ∧
    (∀ e, makeRequestLoop r rule action rows reqs = .error e →
      ∃ row ∈ rows, getDocID r rule row = .error e) := by
  induction rows generalizing reqs with
  | nil =>
    constructor
    · intro docs
      simp [makeRequestLoop, eq_comm]
    · intro e h
      simp [makeRequestLoop] at h
  | cons row rest ih =>
    cases hid : getDocID r rule row with
    | error e0 =>
      constructor
      · intro docs
        simp [makeRequestLoop, hid]
      · intro e h
        simp only [makeRequestLoop, hid, Except.error.injEq] at h
        exact ⟨row, List.mem_cons_self _ _, by rw [hid, h]⟩
    | ok id =>
      by_cases hp : (requestDoc r rule action id row).Properties = []
      · have hlen : ¬ (requestDoc r rule action id row).Properties.length > 0 := by
          simp [hp]
        have hrd : rowDocument r rule action row = none := by simp [rowDocument, hid, hp]
        simp only [makeRequestLoop, hid, if_neg hlen]
        obtain ⟨ih1, ih2⟩ := ih reqs
        constructor
        · intro docs
          rw [ih1 docs]
          simp [hid, List.filterMap_cons, hrd]
        · intro e h
          obtain ⟨row1, hm, he⟩ := ih2 e h
          exact ⟨row1, List.mem_cons_of_mem _ hm, he⟩
      · have hlen : (requestDoc r rule action id row).Properties.length > 0 :=
          (length_pos_iff_ne_nil _).mpr hp
        have hrd : rowDocument r rule action row = some (requestDoc r rule action id row) := by
          simp [rowDocument, hid, hp]
        simp only [makeRequestLoop, hid, if_pos hlen]
        obtain ⟨ih1, ih2⟩ := ih (reqs ++ [requestDoc r rule action id row])
        constructor
        · intro docs
          rw [ih1 docs]
          simp [hid, List.filterMap_cons, hrd]
        · intro e h
          obtain ⟨row1, hm, he⟩ := ih2 e h
          exact ⟨row1, List.mem_cons_of_mem _ hm, he⟩

/-- The loop of `makeUpdateRequest` returns the documents of the pairs in
order, or the error of the first before-image whose identifier cannot be
derived. -/
theorem makeUpdateLoop_eq (r : Lib) (rule : Rule) (n : Nat) :
    ∀ (rows : List (List Value)) (reqs : List Document), rows.length ≤ n →
    (∀ docs, makeUpdateLoop r rule rows reqs = .ok docs ↔
      ((∀ p ∈ pairs rows, ∃ id, getDocID r rule p.1 = .ok id) ∧
        docs = reqs ++ (pairs rows).filterMap (pairDocument r rule))) ∧
    (∀ e, makeUpdateLoop r rule rows reqs = .error e →
      ∃ p ∈ pairs rows, getDocID r rule p.1 = .error e) := by
  induction n with
  | zero =>
    intro rows reqs hn
    have : rows = [] := List.length_eq_zero.mp (Nat.le_zero.mp hn)
    subst this
    constructor
    · intro docs
      simp [makeUpdateLoop, pairs, eq_comm]
    · intro e h
      simp [makeUpdateLoop] at h
  | succ n ih =>
    intro rows reqs hn
    match rows, hn with
    | [], _ =>
      constructor
      · intro docs
        simp [makeUpdateLoop, pairs, eq_comm]
      · intro e h
        simp [makeUpdateLoop] at h
    | [x], _ =>
      constructor
      · intro docs
        simp [makeUpdateLoop, pairs, eq_comm]
      · intro e h
        simp [makeUpdateLoop] at h
    | before :: after :: rest, hn =>
      have hrest : rest.length ≤ n := by
        simp only [List.length_cons] at hn
        omega
      cases hid : getDocID r rule before with
      | error e0 =>
        constructor
        · intro docs
          simp [makeUpdateLoop, pairs, hid]
        · intro e h
          simp only [makeUpdateLoop, hid, Except.error.injEq] at h
          exact ⟨(before, after), by simp [pairs], by rw [hid, h]⟩
      | ok id =>
        by_cases hp : (updateDoc r rule id before after).Properties = []
        · have hlen : ¬ (updateDoc r rule id before after).Properties.length > 0 := by
            simp [hp]
          have hrd : pairDocument r rule (before, after) = none := by
            simp [pairDocument, hid, hp]
          simp only [makeUpdateLoop, hid, if_neg hlen]
          obtain ⟨ih1, ih2⟩ := ih rest reqs hrest
          constructor
          · intro docs
            rw [ih1 docs]
            simp [pairs, hid, List.filterMap_cons, hrd]
          · intro e h
            obtain ⟨p, hm, he⟩ := ih2 e h
            exact ⟨p, by simp [pairs, hm], he⟩
        · have hlen : (updateDoc r rule id before after).Properties.length > 0 :=
            (length_pos_iff_ne_nil _).mpr hp
          have hrd : pairDocument r rule (before, after) =
              some (updateDoc r rule id before after) := by
            simp [pairDocument, hid, hp]
          simp only [makeUpdateLoop, hid, if_pos hlen]
          obtain ⟨ih1, ih2⟩ := ih rest (reqs ++ [updateDoc r rule id before after]) hrest
          constructor
          · intro docs
            rw [ih1 docs]
            simp [pairs, hid, List.filterMap_cons, hrd]
          · intro e h
            obtain ⟨p, hm, he⟩ := ih2 e h
            exact ⟨p, by simp [pairs, hm], he⟩

theorem rowDocument_id (r : Lib) (rule : Rule) (action : String) (row : List Value)
    (d : Document) (h : rowDocument r rule action row = some d) :
    ∃ b, getDocID r rule row = .ok b ∧ d = requestDoc r rule action b row ∧
      d.Id = docId rule b ∧ d.Properties ≠ [] := by
  unfold rowDocument at h
  split at h
  · simp at h
  · rename_i id hid
    split at h
    · simp at h
    · rename_i hp
      simp only [Option.some.injEq] at h
      subst h
      exact ⟨id, hid, rfl, requestDoc_id _ _ _ _ _, hp⟩

theorem pairDocument_id (r : Lib) (rule : Rule) (p : List Value × List Value)
    (d : Document) (h : pairDocument r rule p = some d) :
    ∃ b, getDocID r rule p.1 = .ok b ∧ d = updateDoc r rule b p.1 p.2 ∧
      d.Id = docId rule b ∧ d.Properties ≠ [] := by
  unfold pairDocument at h
  split at h
  · simp at h
  · rename_i id hid
    split at h
    · simp at h
    · rename_i hp
      simp only [Option.some.injEq] at h
      subst h
      exact ⟨id, hid, rfl, updateDoc_id _ _ _ _ _, hp⟩

/-! ## The builders on one row -/

/-- The documents of a builder call on one row. -/
theorem makeRequest_single (r : Lib) (rule : Rule) (action : String) (row : List Value)
    (b : String) (h : getDocID r rule row = .ok b) :
    makeRequest r rule action [row] = .ok (rowDocument r rule action row).toList := by
  unfold makeRequest
  rw [(makeRequestLoop_eq r rule action [row] []).1]
  refine ⟨fun x hx => ⟨b, by rw [List.mem_singleton.mp hx]; exact h⟩, ?_⟩
  cases hd : rowDocument r rule action row <;> simp [hd]

/-- The documents of an update builder call on one pair. -/
theorem makeUpdateRequest_single (r : Lib) (rule : Rule) (before after : List Value)
    (b : String) (h : getDocID r rule before = .ok b) :
    makeUpdateRequest r rule [before, after] =
      .ok (pairDocument r rule (before, after)).toList := by
  have hlen : ¬ ([before, after].length % 2 ≠ 0) := by simp
  unfold makeUpdateRequest
  rw [if_neg hlen, ((makeUpdateLoop_eq r rule 2 [before, after] [] (by simp)).1 _)]
  refine ⟨fun p hp => ⟨b, ?_⟩, ?_⟩
  · simp only [pairs, List.mem_singleton] at hp
    rw [hp]; exact h
  · cases hd : pairDocument r rule (before, after) <;> simp [pairs, hd]

/-- C4. For a row whose `getDocID` result is `b`, the insert builder and the
delete builder on that row, and the update builder on a pair whose
before-image is that row, whatever the after-image, return documents whose
identifier is `docId rule b`: the prefix, ":" and `b` when the rule has a
prefix, and `b` otherwise. -/
theorem C4_builders_same_identifier (r : Lib) (rule : Rule) (row : List Value) (b : String)
    (h : getDocID r rule row = .ok b) :
    (∃ docs, makeInsertRequest r rule [row] = .ok docs ∧ ∀ d ∈ docs, d.Id = docId rule b) ∧
    (∃ docs, makeDeleteRequest r rule [row] = .ok docs ∧ ∀ d ∈ docs, d.Id = docId rule b) ∧
    (∀ after, ∃ docs, makeUpdateRequest r rule [row, after] = .ok docs ∧
      ∀ d ∈ docs, d.Id = docId rule b) ∧
    (rule.IdPrefix ≠ "" → docId rule b = rule.IdPrefix ++ ":" ++ b) ∧
    (rule.IdPrefix = "" → docId rule b = b) := by
  have hrow : ∀ action d, d ∈ (rowDocument r rule action row).toList → d.Id = docId rule b := by
    intro action d hd
    rw [Option.mem_toList] at hd
    obtain ⟨b1, hb1, -, hid, -⟩ := rowDocument_id r rule action row d hd
    rw [h] at hb1
    cases hb1
    exact hid
  refine ⟨⟨_, makeRequest_single r rule InsertAction row b h, hrow _⟩,
    ⟨_, makeRequest_single r rule DeleteAction row b h, hrow _⟩, ?_, ?_, ?_⟩
  · intro after
    refine ⟨_, makeUpdateRequest_single r rule row after b h, ?_⟩
    intro d hd
    rw [Option.mem_toList] at hd
    obtain ⟨b1, hb1, -, hid, -⟩ := pairDocument_id r rule (row, after) d hd
    rw [h] at hb1
    cases hb1
    exact hid
  · intro hp
    simp [docId, hp]
  · intro hp
    simp [docId, hp]

/-- C4 at the row (7, "a", nil) of the example table. -/
theorem C4_builders_same_identifier_witness :
    (∃ docs, makeInsertRequest canalLib exampleRule [[.int .int64 7, .str "a", .nil]] = .ok docs ∧
      ∀ d ∈ docs, d.Id = docId exampleRule "7") ∧
    (∃ docs, makeDeleteRequest canalLib exampleRule [[.int .int64 7, .str "a", .nil]] = .ok docs ∧
      ∀ d ∈ docs, d.Id = docId exampleRule "7") ∧
    (∀ after, ∃ docs,
      makeUpdateRequest canalLib exampleRule [[.int .int64 7, .str "a", .nil], after] = .ok docs ∧
      ∀ d ∈ docs, d.Id = docId exampleRule "7") ∧
    (exampleRule.IdPrefix ≠ "" → docId exampleRule "7" = exampleRule.IdPrefix ++ ":" ++ "7") ∧
    (exampleRule.IdPrefix = "" → docId exampleRule "7" = "7") :=
  C4_builders_same_identifier canalLib exampleRule [.int .int64 7, .str "a", .nil] "7"
    (by decide)

/-! ## Rows that coerce to nil -/

theorem insertMapping_nil (r : Lib) (c : TableColumn) (raw : Value) (st : MapState)
    (kv : String × String) (h : makeReqColumnData r c raw = .nil) :
    (insertMapping r c raw st kv).req = st.req := by
  unfold insertMapping
  simp only [h, if_true]
  split <;> rfl

theorem insertColumn_nil (r : Lib) (rule : Rule) (values : List Value) (req : Document)
    (i : Nat) (c : TableColumn)
    (h : rule.CheckFilter c.Name = true → ∀ raw, values[i]? = some raw →
      makeReqColumnData r c raw = .nil) :
    insertColumn r rule values req (i, c) = req := by
  simp only [insertColumn]
  cases hf : rule.CheckFilter c.Name with
  | false => simp
  | true =>
    simp only [Bool.not_true, Bool.false_eq_true, if_false]
    cases hv : values[i]? with
    | none => rfl
    | some raw =>
      have hnil := h hf raw hv
      have hreq := foldl_preserves (fun st : MapState => st.req = req) (insertMapping r c raw)
        rule.FieldMapping ⟨req, false, ⟨none, none⟩⟩ rfl
        (fun acc x hacc => (insertMapping_nil r c raw acc x hnil).trans hacc)
      simp only [hnil, ne_eq, not_true_eq_false, if_false]
      split <;> exact hreq

/-- C8. When the identifier of every row can be derived, `makeInsertRequest`
returns, in row order, the documents of the rows whose property map is not
empty (`rowDocument`). A row in which every column that passes the filter
and is within the row's arity coerces to nil has no document. -/
theorem C8_insert_documents (r : Lib) (rule : Rule) (rows : List (List Value)) :
    ((∀ row ∈ rows, ∃ id, getDocID r rule row = .ok id) →
      makeInsertRequest r rule rows = .ok (rows.filterMap (rowDocument r rule InsertAction))) ∧
    (∀ row id, getDocID r rule row = .ok id →
      (∀ (i : Nat) (c : TableColumn) (raw : Value), rule.TableInfo.Columns[i]? = some c →
        rule.CheckFilter c.Name = true → row[i]? = some raw →
        makeReqColumnData r c raw = .nil) →
      rowDocument r rule InsertAction row = none ∧ makeInsertRequest r rule [row] = .ok []) := by
  constructor
  · intro h
    unfold makeInsertRequest makeRequest
    rw [(makeRequestLoop_eq r rule InsertAction rows []).1]
    exact ⟨h, by simp⟩
  · intro row id hid hnil
    have hfix : ∀ req, makeInsertReqData r req rule row = req := by
      intro req
      unfold makeInsertReqData
      apply foldl_fixed
      intro x hx acc
      obtain ⟨i, c⟩ := x
      apply insertColumn_nil
      intro hf raw hraw
      exact hnil i c raw (mem_enum_lookup _ i c hx) hf hraw
    have hne : ¬ (InsertAction = DeleteAction) := by decide
    have hnone : rowDocument r rule InsertAction row = none := by
      simp [rowDocument, hid, requestDoc, hne, hfix, withIdPrefix_properties, NewDocument]
    refine ⟨hnone, ?_⟩
    unfold makeInsertRequest
    rw [makeRequest_single r rule InsertAction row id hid, hnone]
    rfl

/-- C8 at an event of two rows. -/
theorem C8_insert_documents_witness :
    makeInsertRequest canalLib exampleRule
        [[.int .int64 7, .str "a", .nil], [.int .int64 8, .nil, .str "b"]] =
      .ok ([[Value.int .int64 7, .str "a", .nil], [.int .int64 8, .nil, .str "b"]].filterMap
        (rowDocument canalLib exampleRule InsertAction)) :=
  (C8_insert_documents canalLib exampleRule
    [[.int .int64 7, .str "a", .nil], [.int .int64 8, .nil, .str "b"]]).1
    (by
      intro row hrow
      simp only [List.mem_cons, List.mem_singleton, List.not_mem_nil, or_false] at hrow
      rcases hrow with h | h
      · exact ⟨"7", by rw [h]; decide⟩
      · exact ⟨"8", by rw [h]; decide⟩)

/-! ## The identifiers of the returned documents -/

theorem pairs_mem (rows : List (List Value)) (p : List Value × List Value)
    (h : p ∈ pairs rows) : p.1 ∈ rows := by
  induction rows using pairs.induct with
  | case1 before after rest ih =>
    simp only [pairs, List.mem_cons] at h
    rcases h with h | h
    · subst h; simp
    · simp [ih h]
  | case2 rows hne =>
    unfold pairs at h
    split at h
    · rename_i b a rest
      exact absurd rfl (hne b a rest)
    · simp at h

theorem docId_eq_empty (rule : Rule) (b : String) :
    docId rule b = "" ↔ rule.IdPrefix = "" ∧ b = "" := by
  unfold docId
  by_cases h : rule.IdPrefix = ""
  · simp [h]
  · rw [if_neg h]
    simp only [h, false_and, iff_false]
    intro he
    have hlen := congrArg String.length he
    rw [String.length_append, String.length_append] at hlen
    have h2 : (":" : String).length = 1 := rfl
    have h3 : ("" : String).length = 0 := rfl
    rw [h2, h3] at hlen
    omega

/-- The documents of a successful builder call, row by row. -/
theorem builder_docs (r : Lib) (rule : Rule) (rows : List (List Value)) (docs : List Document)
    (h : makeInsertRequest r rule rows = .ok docs ∨ makeDeleteRequest r rule rows = .ok docs ∨
      makeUpdateRequest r rule rows = .ok docs) :
    ∀ d ∈ docs, ∃ row ∈ rows, ∃ b, getDocID r rule row = .ok b ∧ d.Id = docId rule b := by
  intro d hd
  rcases h with h | h | h
  · obtain ⟨-, hdocs⟩ := ((makeRequestLoop_eq r rule InsertAction rows []).1 docs).mp h
    rw [hdocs, List.nil_append, List.mem_filterMap] at hd
    obtain ⟨row, hrow, hsome⟩ := hd
    obtain ⟨b, hb, -, hid, -⟩ := rowDocument_id r rule _ row d hsome
    exact ⟨row, hrow, b, hb, hid⟩
  · obtain ⟨-, hdocs⟩ := ((makeRequestLoop_eq r rule DeleteAction rows []).1 docs).mp h
    rw [hdocs, List.nil_append, List.mem_filterMap] at hd
    obtain ⟨row, hrow, hsome⟩ := hd
    obtain ⟨b, hb, -, hid, -⟩ := rowDocument_id r rule _ row d hsome
    exact ⟨row, hrow, b, hb, hid⟩
  · unfold makeUpdateRequest at h
    split at h
    · simp at h
    · obtain ⟨-, hdocs⟩ := ((makeUpdateLoop_eq r rule rows.length rows [] le_rfl).1 docs).mp h
      rw [hdocs, List.nil_append, List.mem_filterMap] at hd
      obtain ⟨p, hp, hsome⟩ := hd
      obtain ⟨b, hb, -, hid, -⟩ := pairDocument_id r rule p d hsome
      exact ⟨p.1, pairs_mem rows p hp, b, hb, hid⟩

/-- C5 fails as stated: a row whose string primary key is empty gives a
document with the empty identifier. -/
theorem C5_identifier_empty_key :
    ¬ (∀ (r : Lib) (rule : Rule) (rows : List (List Value)) (docs : List Document),
      makeInsertRequest r rule rows = .ok docs → ∀ d ∈ docs, d.Id ≠ "") := by
  intro h
  exact h canalLib stringKeyRule [[.str "", .str "a"]]
    [⟨"", [("k", .str ""), ("name", .str "a")]⟩] (by decide) _ (List.mem_singleton.mpr rfl) rfl

/-- C5, amended. Every document returned by one of the three builders has the
identifier `docId rule b` of a row of the event whose `getDocID` result is
`b`, and it is empty only when the rule has no prefix and `b` is empty. -/
theorem C5_identifier_nonempty (r : Lib) (rule : Rule) (rows : List (List Value))
    (docs : List Document)
    (h : makeInsertRequest r rule rows = .ok docs ∨ makeDeleteRequest r rule rows = .ok docs ∨
      makeUpdateRequest r rule rows = .ok docs) :
    ∀ d ∈ docs, ∃ row ∈ rows, ∃ b, getDocID r rule row = .ok b ∧ d.Id = docId rule b ∧
      (d.Id = "" ↔ rule.IdPrefix = "" ∧ b = "") := by
  intro d hd
  obtain ⟨row, hrow, b, hb, hid⟩ := builder_docs r rule rows docs h d hd
  exact ⟨row, hrow, b, hb, hid, by rw [hid]; exact docId_eq_empty rule b⟩

/-- C5, amended, at the insert of the row (7, "a", nil). -/
theorem C5_identifier_nonempty_witness :
    ∃ row ∈ [[Value.int .int64 7, .str "a", .nil]], ∃ b,
      getDocID canalLib exampleRule row = .ok b ∧
      (⟨"7", [("id", .int .int64 7), ("n", .str "a")]⟩ : Document).Id = docId exampleRule b ∧
      ((⟨"7", [("id", .int .int64 7), ("n", .str "a")]⟩ : Document).Id = "" ↔
        exampleRule.IdPrefix = "" ∧ b = "") :=
  C5_identifier_nonempty canalLib exampleRule [[.int .int64 7, .str "a", .nil]]
    [⟨"7", [("id", .int .int64 7), ("n", .str "a")]⟩] (Or.inl (by decide)) _
    (List.mem_singleton.mpr rfl)

/-! ## Update events and the parity of their length -/

/-- C6. On a row list of odd length `makeUpdateRequest` returns the "invalid
update rows event" error, whatever the rule, the rows and the row readers. On
a row list of even length it never returns that error, and every error it
returns is the `getDocID` error of the before-image of one of the pairs. -/
theorem C6_update_rows_parity (r : Lib) (rule : Rule) (rows : List (List Value)) :
    (rows.length % 2 = 1 →
      makeUpdateRequest r rule rows = .error (.invalidUpdateRows rows.length)) ∧
    (rows.length % 2 = 0 →
      (∀ n, makeUpdateRequest r rule rows ≠ .error (.invalidUpdateRows n)) ∧
      ∀ e, makeUpdateRequest r rule rows = .error e →
        ∃ p ∈ pairs rows, getDocID r rule p.1 = .error e) := by
  constructor
  · intro h
    simp [makeUpdateRequest, h]
  · intro h
    have hfail : ∀ e, makeUpdateRequest r rule rows = .error e →
        ∃ p ∈ pairs rows, getDocID r rule p.1 = .error e := by
      intro e he
      simp only [makeUpdateRequest, h, ne_eq, not_true_eq_false, if_false] at he
      exact (makeUpdateLoop_eq r rule rows.length rows [] le_rfl).2 e he
    refine ⟨?_, hfail⟩
    intro n hn
    obtain ⟨p, -, hp⟩ := hfail _ hn
    exact getDocID_not_invalid r rule p.1 n hp

/-- C6 at a list of one row and at a list of two rows. -/
theorem C6_update_rows_parity_witness :
    makeUpdateRequest canalLib exampleRule [[.int .int64 7, .str "a", .nil]] =
      .error (.invalidUpdateRows [[Value.int .int64 7, .str "a", .nil]].length) ∧
    makeUpdateRequest canalLib exampleRule
      [[.int .int64 7, .str "a", .nil], [.int .int64 7, .str "b", .nil]] ≠
      .error (.invalidUpdateRows 2) :=
  ⟨(C6_update_rows_parity canalLib exampleRule [[.int .int64 7, .str "a", .nil]]).1 (by decide),
   ((C6_update_rows_parity canalLib exampleRule
      [[.int .int64 7, .str "a", .nil], [.int .int64 7, .str "b", .nil]]).2 (by decide)).1 2⟩

/-! ## Field mappings with distinct keys -/

/-- A loop over a mapping with distinct keys whose body acts only on the
entries of one key acts at most once, on the entry of that key. -/
theorem foldl_unique_key {σ : Type} (f : σ → String × String → σ) (name : String)
    (hf : ∀ st kv, kv.1 ≠ name → f st kv = st) (l : List (String × String))
    (hnd : (l.map Prod.fst).Nodup) (st : σ) :
    l.foldl f st =
      match l.find? (fun kv => decide (kv.1 = name)) with
      | some kv => f st kv
      | none => st := by
  induction l generalizing st with
  | nil => rfl
  | cons kv t ih =>
    rw [List.map_cons, List.nodup_cons] at hnd
    by_cases hk : kv.1 = name
    · have hfind : List.find? (fun kv => decide (kv.1 = name)) (kv :: t) = some kv := by
        simp [List.find?_cons, hk]
      rw [hfind, List.foldl_cons]
      apply foldl_fixed
      intro y hy acc
      apply hf
      intro hyn
      apply hnd.1
      rw [hk, ← hyn]
      exact List.mem_map_of_mem _ hy
    · have hfind : List.find? (fun kv => decide (kv.1 = name)) (kv :: t) =
          List.find? (fun kv => decide (kv.1 = name)) t := by
        simp [List.find?_cons, hk]
      rw [hfind, List.foldl_cons, hf st kv hk]
      exact ih hnd.2 st

theorem find_key {name : String} {l : List (String × String)} {kv : String × String}
    (h : l.find? (fun kv => decide (kv.1 = name)) = some kv) : kv.1 = name := by
  have := List.find?_some h
  simpa using this

theorem deleteMapping_other (c : TableColumn) (st : Document × Bool) (kv : String × String)
    (h : kv.1 ≠ c.Name) : deleteMapping c st kv = st := by
  unfold deleteMapping
  simp only [getFieldParts]
  rw [if_neg h]

theorem insertMapping_other (r : Lib) (c : TableColumn) (raw : Value) (st : MapState)
    (kv : String × String) (h : kv.1 ≠ c.Name) : insertMapping r c raw st kv = st := by
  unfold insertMapping
  simp only [getFieldParts]
  rw [if_neg h]

theorem updateMapping_other (r : Lib) (c : TableColumn) (raw : Value) (st : MapState)
    (kv : String × String) (h : kv.1 ≠ c.Name) : updateMapping r c raw st kv = st := by
  unfold updateMapping
  simp only [getFieldParts]
  rw [if_neg h]

/-- The delete builder's column body for a rule with distinct mapping keys. -/
theorem deleteColumn_eq (rule : Rule) (hwf : rule.WF) (values : List Value) (req : Document)
    (i : Nat) (c : TableColumn) :
    deleteColumn rule values req (i, c) =
      if rule.CheckFilter c.Name = true ∧ i < values.length then
        req.Set (targetName rule c) (.str "")
      else req := by
  simp only [deleteColumn]
  cases hf : rule.CheckFilter c.Name with
  | false => simp
  | true =>
    by_cases hi : i < values.length
    · have hi2 : ¬ (i ≥ values.length) := by omega
      simp only [Bool.not_true, Bool.false_eq_true, if_false, if_neg hi2, hi, and_self, if_true]
      rw [foldl_unique_key (deleteMapping c) c.Name (deleteMapping_other c) _ hwf]
      unfold targetName
      cases hfind : rule.FieldMapping.find? (fun kv => decide (kv.1 = c.Name)) with
      | none => simp
      | some kv =>
        have hk := find_key hfind
        have hk2 : (getFieldParts kv.1 kv.2).1 = c.Name := hk
        simp [deleteMapping, hk2]
    · have hi2 : i ≥ values.length := by omega
      simp [hi2, hi]

/-! ## Property maps -/

theorem mapGet_mapSet (m : List (String × Value)) (k k1 : String) (v : Value) :
    mapGet (mapSet m k v) k1 = if k = k1 then some v else mapGet m k1 := by
  induction m with
  | nil => simp [mapSet, mapGet]
  | cons p t ih =>
    obtain ⟨k0, v0⟩ := p
    simp only [mapSet]
    by_cases h0 : k0 = k
    · subst h0
      simp only [if_true, mapGet]
      split <;> rfl
    · simp only [if_neg h0, mapGet, ih]
      by_cases h1 : k0 = k1
      · subst h1
        have : ¬ (k = k0) := fun h => h0 h.symm
        simp [this]
      · simp [h1]

/-! ## The delete builder -/

/-- C7. For a rule whose field mapping has distinct keys, the property map
the delete builder builds from an empty one has as keys the target names of
the columns that pass the filter and whose index is below the row's length:
every key is such a target name and holds the empty string, and every such
target name is a key. The result depends on the row only through its length. -/
theorem C7_delete_properties (rule : Rule) (hwf : rule.WF) (id : String) (values : List Value) :
    (∀ k v, mapGet (makeDeleteReqData (NewDocument id) rule values).Properties k = some v →
      v = .str "" ∧ ∃ i c, rule.TableInfo.Columns[i]? = some c ∧
        rule.CheckFilter c.Name = true ∧ i < values.length ∧ targetName rule c = k) ∧
    (∀ i c, rule.TableInfo.Columns[i]? = some c → rule.CheckFilter c.Name = true →
      i < values.length →
      mapGet (makeDeleteReqData (NewDocument id) rule values).Properties (targetName rule c) =
        some (.str "")) ∧
    (∀ (values2 : List Value) (req : Document), values2.length = values.length →
      makeDeleteReqData req rule values2 = makeDeleteReqData req rule values) := by
  refine ⟨?_, ?_, ?_⟩
  · unfold makeDeleteReqData
    apply foldl_preserves_mem (fun d : Document => ∀ k v, mapGet d.Properties k = some v →
      v = .str "" ∧ ∃ i c, rule.TableInfo.Columns[i]? = some c ∧
        rule.CheckFilter c.Name = true ∧ i < values.length ∧ targetName rule c = k)
    · intro k v h
      simp [NewDocument, mapGet] at h
    · intro acc x hx hacc k v h
      obtain ⟨i, c⟩ := x
      rw [deleteColumn_eq rule hwf] at h
      split at h
      · rename_i hc
        simp only [Document.Set, mapGet_mapSet] at h
        split at h
        · rename_i hk
          simp only [Option.some.injEq] at h
          exact ⟨h.symm, i, c, mem_enum_lookup _ i c hx, hc.1, hc.2, hk⟩
        · exact hacc k v h
      · exact hacc k v h
  · intro i c hc hf hi
    unfold makeDeleteReqData
    apply foldl_establishes (fun d : Document =>
      mapGet d.Properties (targetName rule c) = some (.str "")) _ _ _ (i, c)
      (List.mk_mem_enum_iff_getElem?.mpr hc)
    · intro acc
      rw [deleteColumn_eq rule hwf, if_pos ⟨hf, hi⟩]
      simp [Document.Set, mapGet_mapSet]
    · intro acc y hacc
      obtain ⟨j, c2⟩ := y
      rw [deleteColumn_eq rule hwf]
      split
      · simp only [Document.Set, mapGet_mapSet]
        split
        · rfl
        · exact hacc
      · exact hacc
  · intro values2 req hlen
    unfold makeDeleteReqData
    apply foldl_congr_fun
    intro acc x _
    obtain ⟨i, c⟩ := x
    simp only [deleteColumn, hlen]

/-- C7 at the column `name` of the example rule. -/
theorem C7_delete_properties_witness :
    mapGet (makeDeleteReqData (NewDocument "7") exampleRule
      [.int .int64 7, .str "a", .nil]).Properties
      (targetName exampleRule ⟨"name", .STRING, [], []⟩) = some (.str "") :=
  (C7_delete_properties exampleRule (by decide) "7" [.int .int64 7, .str "a", .nil]).2.1 1
    ⟨"name", .STRING, [], []⟩ (by decide) (by decide) (by decide)

/-! ## The update builder and the insert builder -/

/-- On a coerced value that is not nil, the mapping loops of the update and
of the insert builder have the same body. -/
theorem updateMapping_eq_insertMapping (r : Lib) (c : TableColumn) (raw : Value)
    (st : MapState) (kv : String × String) (h : makeReqColumnData r c raw ≠ .nil) :
    updateMapping r c raw st kv = insertMapping r c raw st kv := by
  unfold updateMapping insertMapping
  simp only [h, if_false]
  by_cases hk : (getFieldParts kv.1 kv.2).1 = c.Name
  · simp only [hk, if_true]
    by_cases hl : (getFieldParts kv.1 kv.2).2.2 = fieldTypeList
    · have h1 : ¬ (fieldTypeList = fieldTypeNumericBool) := by decide
      have h2 : ¬ (fieldTypeList = fieldTypeGeoLat ∨ fieldTypeList = fieldTypeGeoLon) := by
        decide
      simp only [hl, h1, h2, if_true, if_false]
    · simp only [hl, if_false]
      by_cases hn : (getFieldParts kv.1 kv.2).2.2 = fieldTypeNumericBool
      · simp only [hn, if_true]
      · simp only [hn, if_false]
        by_cases hg : (getFieldParts kv.1 kv.2).2.2 = fieldTypeGeoLat ∨
            (getFieldParts kv.1 kv.2).2.2 = fieldTypeGeoLon
        · simp only [hg, if_true]
        · simp only [hg, if_false]
          split
          · rename_i s hs
            rw [hs]
          · rfl
  · simp only [hk, if_false]

theorem updateMapping_nil (r : Lib) (c : TableColumn) (raw : Value) (st : MapState)
    (kv : String × String) (h : makeReqColumnData r c raw = .nil) (hk : kv.1 = c.Name) :
    updateMapping r c raw st kv =
      ⟨st.req.Set (getFieldParts kv.1 kv.2).2.1 (.str ""), true, st.geoField⟩ := by
  have hk2 : (getFieldParts kv.1 kv.2).1 = c.Name := hk
  unfold updateMapping
  simp only [h, hk2, if_true]

/-- C9. For a column that passes the filter, is within the arity of both rows
and whose raw values differ deeply: when the coerced after-value is nil the
update builder sets the column's target field to the empty string (for a
field mapping with distinct keys), and otherwise its loop body is the loop
body of the insert builder on the after-row. -/
theorem C9_update_refines_insert (r : Lib) (rule : Rule) (before after : List Value)
    (i : Nat) (c : TableColumn) (b a : Value)
    (hf : rule.CheckFilter c.Name = true) (hb : before[i]? = some b) (ha : after[i]? = some a)
    (hne : DeepEqual b a = false) :
    (makeReqColumnData r c a = .nil → rule.WF →
      ∀ req, updateColumn r rule before after req (i, c) =
        req.Set (targetName rule c) (.str "")) ∧
    (makeReqColumnData r c a ≠ .nil →
      ∀ req, updateColumn r rule before after req (i, c) =
        insertColumn r rule after req (i, c)) := by
  constructor
  · intro hnil hwf req
    simp only [updateColumn, hf, hb, ha, hne, Bool.not_true, Bool.false_eq_true, if_false, hnil,
      if_true]
    rw [foldl_unique_key (updateMapping r c a) c.Name (updateMapping_other r c a) _ hwf]
    unfold targetName
    cases hfind : rule.FieldMapping.find? (fun kv => decide (kv.1 = c.Name)) with
    | none => simp
    | some kv => simp [updateMapping_nil r c a _ kv hnil (find_key hfind)]
  · intro hv req
    simp only [updateColumn, insertColumn, hf, hb, ha, hne, Bool.not_true, Bool.false_eq_true,
      if_false]
    rw [foldl_congr_fun (updateMapping r c a) (insertMapping r c a) rule.FieldMapping _
      (fun acc x _ => updateMapping_eq_insertMapping r c a acc x hv)]
    simp only [hv, if_false, ne_eq, not_false_eq_true, if_true]

/-- C9 at the column `name`, once set to nil and once changed to "b". -/
theorem C9_update_refines_insert_witness :
    (∀ req, updateColumn canalLib exampleRule [.int .int64 7, .str "a", .nil]
        [.int .int64 7, .nil, .nil] req (1, ⟨"name", .STRING, [], []⟩) =
      req.Set (targetName exampleRule ⟨"name", .STRING, [], []⟩) (.str "")) ∧
    (∀ req, updateColumn canalLib exampleRule [.int .int64 7, .str "a", .nil]
        [.int .int64 7, .str "b", .nil] req (1, ⟨"name", .STRING, [], []⟩) =
      insertColumn canalLib exampleRule [.int .int64 7, .str "b", .nil] req
        (1, ⟨"name", .STRING, [], []⟩)) :=
  ⟨(C9_update_refines_insert canalLib exampleRule [.int .int64 7, .str "a", .nil]
      [.int .int64 7, .nil, .nil] 1 ⟨"name", .STRING, [], []⟩ (.str "a") .nil
      (by decide) (by decide) (by decide) (by decide)).1 (by decide) (by decide),
   (C9_update_refines_insert canalLib exampleRule [.int .int64 7, .str "a", .nil]
      [.int .int64 7, .str "b", .nil] 1 ⟨"name", .STRING, [], []⟩ (.str "a") (.str "b")
      (by decide) (by decide) (by decide) (by decide)).2 (by decide)⟩

/-! ## Geo fields -/

/-- C10. On a row whose latitude and longitude columns are both mapped to the
geo field `loc` and both hold strings, the insert builder writes no field
`loc`, and the update builder, with both columns changed, writes none either
and so returns no document: the scratch map is created anew for every column. -/
theorem C10_geo_never_assembled :
    makeInsertRequest canalLib geoRule [[.int .int64 7, .str "1.5", .str "2.5"]] =
      .ok [⟨"7", [("id", .int .int64 7)]⟩] ∧
    makeUpdateRequest canalLib geoRule
      [[.int .int64 7, .str "1.5", .str "2.5"], [.int .int64 7, .str "3.5", .str "4.5"]] =
      .ok [] := by
  decide

/-! ## The sync loop: position saves and the buffer -/

theorem Sub_gt_iff (t u : Int) : Sub t u > 3 * Second ↔ t - u > 3 * Second := by
  unfold Sub Second
  simp only
  split_ifs <;> omega

/-- The flush-and-save part when both a flush and a save are asked for. -/
theorem flushAndSave_both (ans : Answers) (s : LoopState) :
    flushAndSave ans s true true =
      if doBulk ans s.reqs = true then (none, [.doBulk s.reqs true])
      else if ans.saveErr = true then (none, [.doBulk s.reqs false, .save s.pos true])
      else (some ⟨s.lastSavedTime, [], s.pos⟩, [.doBulk s.reqs false, .save s.pos false]) := by
  cases h1 : doBulk ans s.reqs <;> cases h2 : ans.saveErr <;> simp [flushAndSave, h1, h2]

/-- The flush-and-save part when only a flush is asked for. -/
theorem flushAndSave_flush (ans : Answers) (s : LoopState) :
    flushAndSave ans s true false =
      if doBulk ans s.reqs = true then (none, [.doBulk s.reqs true])
      else (some ⟨s.lastSavedTime, [], s.pos⟩, [.doBulk s.reqs false]) := by
  cases h1 : doBulk ans s.reqs <;> simp [flushAndSave, h1]

/-- An accepted `posSaver`: flush, then save. -/
theorem iteration_posSaver_accept (bulkSize : Int) (s : LoopState) (pos : Position)
    (force : Bool) (now : Int) (ans : Answers)
    (h : force = true ∨ now - s.lastSavedTime > 3 * Second) :
    iteration bulkSize s (.posSaver pos force now) ans =
      if doBulk ans s.reqs = true then (none, [.doBulk s.reqs true])
      else if ans.saveErr = true then (none, [.doBulk s.reqs false, .save pos true])
      else (some ⟨now, [], pos⟩, [.doBulk s.reqs false, .save pos false]) := by
  have hc : force = true ∨ Sub now s.lastSavedTime > 3 * Second := by
    rw [Sub_gt_iff]; exact h
  simp only [iteration, selectStep, if_pos hc, recvEffect, List.nil_append, flushAndSave_both]

/-- An absorbed `posSaver`: nothing happens. -/
theorem iteration_posSaver_absorb (bulkSize : Int) (s : LoopState) (pos : Position)
    (force : Bool) (now : Int) (ans : Answers)
    (h : ¬ (force = true ∨ now - s.lastSavedTime > 3 * Second)) :
    iteration bulkSize s (.posSaver pos force now) ans = (some s, []) := by
  have hc : ¬ (force = true ∨ Sub now s.lastSavedTime > 3 * Second) := by
    rw [Sub_gt_iff]; exact h
  simp [iteration, selectStep, if_neg hc, recvEffect, flushAndSave]

/-- A document slice: append, and flush when the bulk size is reached. -/
theorem iteration_docs (bulkSize : Int) (s : LoopState) (v : List Document) (ans : Answers) :
    iteration bulkSize s (.docs v) ans =
      if ((s.reqs ++ v).length : Int) ≥ bulkSize then
        if doBulk ans (s.reqs ++ v) = true then (none, [.recv v, .doBulk (s.reqs ++ v) true])
        else (some ⟨s.lastSavedTime, [], s.pos⟩, [.recv v, .doBulk (s.reqs ++ v) false])
      else (some ⟨s.lastSavedTime, s.reqs ++ v, s.pos⟩, [.recv v]) := by
  by_cases hb : ((s.reqs ++ v).length : Int) ≥ bulkSize
  · simp only [iteration, selectStep, hb, decide_True, flushAndSave_flush, recvEffect, if_true]
    split_ifs <;> rfl
  · have hb2 : ¬ bulkSize ≤ (s.reqs.length : Int) + (v.length : Int) := by
      simpa using hb
    simp [iteration, selectStep, hb2, flushAndSave, recvEffect]

/-- A tick: flush. -/
theorem iteration_tick (bulkSize : Int) (s : LoopState) (ans : Answers) :
    iteration bulkSize s .tick ans =
      if doBulk ans s.reqs = true then (none, [.doBulk s.reqs true])
      else (some ⟨s.lastSavedTime, [], s.pos⟩, [.doBulk s.reqs false]) := by
  simp only [iteration, selectStep, flushAndSave_flush, recvEffect, List.nil_append]

/-- C11 fails as stated: a non-forced `posSaver` that comes exactly three
seconds after the last accepted one, which is at least three seconds, is
absorbed: no flush, no save, the variables unchanged. -/
theorem C11_position_save_boundary :
    3 * Second ≤ 3000000000 - (0 : Int) ∧
    iteration 128 ⟨0, [⟨"7", [("n", .str "a")]⟩], ⟨"bin.000001", 4⟩⟩
      (.posSaver ⟨"bin.000001", 120⟩ false 3000000000) ⟨false, false⟩ =
      (some ⟨0, [⟨"7", [("n", .str "a")]⟩], ⟨"bin.000001", 4⟩⟩, []) := by
  decide

/-- C11, amended. On a `posSaver` with position `pos` at clock reading `now`,
when `force` is true or `now` is more than three seconds after the last-save
time, the loop calls `doBulk` on the buffer and, when that returns no error,
calls `Save` on `pos`, and goes on with the last-save time `now`, the empty
buffer and the pending position `pos` when both succeed. Otherwise it does
nothing and keeps its variables. -/
theorem C11_position_save (bulkSize : Int) (s : LoopState) (pos : Position) (force : Bool)
    (now : Int) (ans : Answers) :
    ((force = true ∨ now - s.lastSavedTime > 3 * Second) →
      iteration bulkSize s (.posSaver pos force now) ans =
        if doBulk ans s.reqs = true then (none, [.doBulk s.reqs true])
        else if ans.saveErr = true then (none, [.doBulk s.reqs false, .save pos true])
        else (some ⟨now, [], pos⟩, [.doBulk s.reqs false, .save pos false])) ∧
    (¬ (force = true ∨ now - s.lastSavedTime > 3 * Second) →
      iteration bulkSize s (.posSaver pos force now) ans = (some s, [])) :=
  ⟨iteration_posSaver_accept bulkSize s pos force now ans,
   iteration_posSaver_absorb bulkSize s pos force now ans⟩


/-! ## The debounce of non-forced position saves -/

/-- A non-forced `posSaver` whose iteration calls `Save` came more than three
seconds after the last accepted one, and becomes the last accepted one. -/
theorem hasSave_posSaver (bulkSize : Int) (s : LoopState) (pos : Position) (now : Int)
    (ans : Answers)
    (h : hasSave (iteration bulkSize s (.posSaver pos false now) ans).2 = true) :
    now - s.lastSavedTime > 3 * Second ∧
    ∀ s1, (iteration bulkSize s (.posSaver pos false now) ans).1 = some s1 →
      s1.lastSavedTime = now := by
  by_cases hc : false = true ∨ now - s.lastSavedTime > 3 * Second
  · refine ⟨by simpa using hc, ?_⟩
    intro s1 h1
    rw [iteration_posSaver_accept bulkSize s pos false now ans hc] at h1
    split_ifs at h1
    simp only [Option.some.injEq] at h1
    subst h1
    rfl
  · rw [iteration_posSaver_absorb bulkSize s pos false now ans hc] at h
    simp [hasSave] at h

/-- An iteration leaves the last-save time as it is, or sets it to the clock
reading of its `posSaver`. -/
theorem iteration_lastSavedTime (bulkSize : Int) (s s1 : LoopState) (sel : Select)
    (ans : Answers) (h : (iteration bulkSize s sel ans).1 = some s1) :
    s1.lastSavedTime = s.lastSavedTime ∨
      ∃ pos force now, sel = .posSaver pos force now ∧ s1.lastSavedTime = now := by
  cases sel with
  | posSaver pos force now =>
    by_cases hc : force = true ∨ now - s.lastSavedTime > 3 * Second
    · rw [iteration_posSaver_accept bulkSize s pos force now ans hc] at h
      split_ifs at h
      simp only [Option.some.injEq] at h
      subst h
      exact Or.inr ⟨pos, force, now, rfl, rfl⟩
    · rw [iteration_posSaver_absorb bulkSize s pos force now ans hc] at h
      simp only [Option.some.injEq] at h
      subst h
      exact Or.inl rfl
  | docs v =>
    rw [iteration_docs] at h
    split_ifs at h <;>
      first
      | (simp at h; done)
      | (simp only [Option.some.injEq] at h; subst h; exact Or.inl rfl)
  | tick =>
    rw [iteration_tick] at h
    split_ifs at h
    simp only [Option.some.injEq] at h
    subst h
    exact Or.inl rfl
  | done => simp [iteration, selectStep] at h

theorem clockReadings_cons (sel : Select) (ans : Answers) (rest : List (Select × Answers)) :
    clockReadings ((sel, ans) :: rest) = clockReadings rest ∨
      ∃ pos force now, sel = .posSaver pos force now ∧
        clockReadings ((sel, ans) :: rest) = now :: clockReadings rest := by
  cases sel with
  | posSaver pos force now => exact Or.inr ⟨pos, force, now, rfl, rfl⟩
  | docs v => exact Or.inl rfl
  | tick => exact Or.inl rfl
  | done => exact Or.inl rfl

theorem nonForcedSave_cases (sel : Select) (eff : List Effect) :
    nonForcedSave sel eff = [] ∨ ∃ pos now, sel = .posSaver pos false now ∧
      nonForcedSave sel eff = [now] ∧ hasSave eff = true := by
  cases sel with
  | posSaver pos force now =>
    cases force with
    | false =>
      by_cases hsv : hasSave eff = true
      · exact Or.inr ⟨pos, now, rfl, by simp [nonForcedSave, hsv], hsv⟩
      · exact Or.inl (by simp [nonForcedSave, hsv])
    | true => exact Or.inl rfl
  | docs v => exact Or.inl rfl
  | tick => exact Or.inl rfl
  | done => exact Or.inl rfl

/-- With non-decreasing clock readings, the non-forced items that reach
`Save` lie more than three seconds after the last-save time of the start and
more than three seconds apart. -/
theorem nonForcedSaves_spaced (bulkSize : Int) (inputs : List (Select × Answers)) :
    ∀ s : LoopState, List.Pairwise (fun a b => a ≤ b) (s.lastSavedTime :: clockReadings inputs) →
      List.Pairwise (fun a b => b - a > 3 * Second)
        (s.lastSavedTime :: nonForcedSaves bulkSize s inputs) := by
  induction inputs with
  | nil =>
    intro s _
    simp [nonForcedSaves]
  | cons inp rest ih =>
    intro s hs
    obtain ⟨sel, ans⟩ := inp
    rw [List.pairwise_cons] at hs
    obtain ⟨hle, hpw⟩ := hs
    simp only [nonForcedSaves]
    generalize hh : nonForcedSave sel (iteration bulkSize s sel ans).2 = here
    have hcase : here = [] ∨ ∃ pos now, sel = .posSaver pos false now ∧ here = [now] ∧
        hasSave (iteration bulkSize s sel ans).2 = true := by
      rw [← hh]
      exact nonForcedSave_cases sel _
    -- the rest of the run
    have htail : ∀ s1, (iteration bulkSize s sel ans).1 = some s1 →
        s.lastSavedTime ≤ s1.lastSavedTime ∧
        List.Pairwise (fun a b => b - a > 3 * Second)
          (s1.lastSavedTime :: nonForcedSaves bulkSize s1 rest) := by
      intro s1 h1
      rcases clockReadings_cons sel ans rest with hcr | ⟨pos, force, now, hsel, hcr⟩
      · rw [hcr] at hle hpw
        rcases iteration_lastSavedTime bulkSize s s1 sel ans h1 with hl | ⟨p, f, n, hsel, hl⟩
        · refine ⟨by rw [hl], ih s1 ?_⟩
          rw [hl]
          exact List.pairwise_cons.mpr ⟨hle, hpw⟩
        · subst hsel
          simp [clockReadings] at hcr
      · rw [hcr] at hle hpw
        rcases iteration_lastSavedTime bulkSize s s1 sel ans h1 with hl | ⟨p, f, n, hsel2, hl⟩
        · refine ⟨by rw [hl], ih s1 ?_⟩
          rw [hl]
          rw [List.pairwise_cons] at hpw
          exact List.pairwise_cons.mpr
            ⟨fun a ha => hle a (List.mem_cons_of_mem _ ha), hpw.2⟩
        · rw [hsel] at hsel2
          cases hsel2
          refine ⟨by rw [hl]; exact hle now (List.mem_cons_self _ _), ih s1 ?_⟩
          rw [hl]
          exact hpw
    cases hnext : (iteration bulkSize s sel ans).1 with
    | none =>
      simp only
      rcases hcase with h0 | ⟨pos, now, hsel, h1, hsv⟩
      · rw [h0]; simp
      · subst hsel
        rw [h1]
        have := (hasSave_posSaver bulkSize s pos now ans hsv).1
        simp [this]
    | some s1 =>
      simp only
      obtain ⟨hmono, hrest⟩ := htail s1 hnext
      rw [List.pairwise_cons] at hrest
      obtain ⟨hfar, hpair⟩ := hrest
      have hfar2 : ∀ t ∈ nonForcedSaves bulkSize s1 rest, t - s.lastSavedTime > 3 * Second := by
        intro t ht
        have := hfar t ht
        omega
      rcases hcase with h0 | ⟨pos, now, hsel, h1, hsv⟩
      · rw [h0, List.nil_append]
        exact List.pairwise_cons.mpr ⟨hfar2, hpair⟩
      · subst hsel
        rw [h1]
        obtain ⟨hgt, hnow⟩ := hasSave_posSaver bulkSize s pos now ans hsv
        have hs1 : s1.lastSavedTime = now := hnow s1 hnext
        rw [hs1] at hfar
        simp only [List.singleton_append]
        refine List.pairwise_cons.mpr ⟨?_, List.pairwise_cons.mpr ⟨hfar, hpair⟩⟩
        intro t ht
        rcases List.mem_cons.mp ht with h | h
        · rw [h]; exact hgt
        · exact hfar2 t h

/-- C12. A non-forced `posSaver` that comes within three seconds of the last
accepted one is absorbed: the iteration has no effect and keeps the buffer,
the pending position and the last-save time. A tick never calls `Save`. A
non-forced `posSaver` whose iteration calls `Save` comes more than three
seconds after the last accepted one. In a run with non-decreasing clock
readings, the non-forced items that reach `Save` lie more than three seconds
after the last-save time of the start and more than three seconds apart. -/
theorem C12_debounce (bulkSize : Int) :
    (∀ (s : LoopState) (pos : Position) (now : Int) (ans : Answers),
      now - s.lastSavedTime ≤ 3 * Second →
      iteration bulkSize s (.posSaver pos false now) ans = (some s, [])) ∧
    (∀ (s : LoopState) (ans : Answers), hasSave (iteration bulkSize s .tick ans).2 = false) ∧
    (∀ (s : LoopState) (pos : Position) (now : Int) (ans : Answers),
      hasSave (iteration bulkSize s (.posSaver pos false now) ans).2 = true →
      now - s.lastSavedTime > 3 * Second) ∧
    (∀ (s : LoopState) (inputs : List (Select × Answers)),
      List.Pairwise (fun a b => a ≤ b) (s.lastSavedTime :: clockReadings inputs) →
      List.Pairwise (fun a b => b - a > 3 * Second)
        (s.lastSavedTime :: nonForcedSaves bulkSize s inputs)) := by
  refine ⟨?_, ?_, ?_, ?_⟩
  · intro s pos now ans h
    apply iteration_posSaver_absorb
    intro hc
    rcases hc with hc | hc
    · simp at hc
    · omega
  · intro s ans
    rw [iteration_tick]
    split_ifs <;> rfl
  · intro s pos now ans h
    exact (hasSave_posSaver bulkSize s pos now ans h).1
  · intro s inputs h
    exact nonForcedSaves_spaced bulkSize inputs s h


/-- C12 at a run with non-forced items at 4 s, 5 s and 8 s. -/
theorem C12_debounce_witness :
    List.Pairwise (fun a b => b - a > 3 * Second)
      ((⟨0, [], ⟨"", 0⟩⟩ : LoopState).lastSavedTime :: nonForcedSaves 128 ⟨0, [], ⟨"", 0⟩⟩
        [(.posSaver ⟨"bin.000001", 4⟩ false 4000000000, ⟨false, false⟩),
         (.posSaver ⟨"bin.000001", 9⟩ false 5000000000, ⟨false, false⟩),
         (.tick, ⟨false, false⟩),
         (.posSaver ⟨"bin.000001", 15⟩ false 8000000000, ⟨false, false⟩)]) :=
  (C12_debounce 128).2.2.2 ⟨0, [], ⟨"", 0⟩⟩
    [(.posSaver ⟨"bin.000001", 4⟩ false 4000000000, ⟨false, false⟩),
     (.posSaver ⟨"bin.000001", 9⟩ false 5000000000, ⟨false, false⟩),
     (.tick, ⟨false, false⟩),
     (.posSaver ⟨"bin.000001", 15⟩ false 8000000000, ⟨false, false⟩)] (by decide)

/-- C11, amended, at a forced item and at a non-forced item one second after the
last accepted one. -/
theorem C11_position_save_witness :
    iteration 128 ⟨0, [⟨"7", [("n", .str "a")]⟩], ⟨"bin.000001", 4⟩⟩
        (.posSaver ⟨"bin.000002", 4⟩ true 1000000000) ⟨false, false⟩ =
      (some ⟨1000000000, [], ⟨"bin.000002", 4⟩⟩,
        [.doBulk [⟨"7", [("n", .str "a")]⟩] false, .save ⟨"bin.000002", 4⟩ false]) ∧
    iteration 128 ⟨0, [⟨"7", [("n", .str "a")]⟩], ⟨"bin.000001", 4⟩⟩
        (.posSaver ⟨"bin.000001", 120⟩ false 1000000000) ⟨false, false⟩ =
      (some ⟨0, [⟨"7", [("n", .str "a")]⟩], ⟨"bin.000001", 4⟩⟩, []) :=
  ⟨(C11_position_save 128 ⟨0, [⟨"7", [("n", .str "a")]⟩], ⟨"bin.000001", 4⟩⟩
      ⟨"bin.000002", 4⟩ true 1000000000 ⟨false, false⟩).1 (Or.inl rfl),
   (C11_position_save 128 ⟨0, [⟨"7", [("n", .str "a")]⟩], ⟨"bin.000001", 4⟩⟩
      ⟨"bin.000001", 120⟩ false 1000000000 ⟨false, false⟩).2 (by decide)⟩

/-! ## The bound on the buffer -/

/-- An iteration keeps the buffer below a positive bulk size. -/
theorem iteration_bound (bulkSize : Int) (hB : 0 < bulkSize) (s s1 : LoopState) (sel : Select)
    (ans : Answers) (hs : (s.reqs.length : Int) < bulkSize)
    (h : (iteration bulkSize s sel ans).1 = some s1) : (s1.reqs.length : Int) < bulkSize := by
  cases sel with
  | posSaver pos force now =>
    by_cases hc : force = true ∨ now - s.lastSavedTime > 3 * Second
    · rw [iteration_posSaver_accept bulkSize s pos force now ans hc] at h
      split_ifs at h
      simp only [Option.some.injEq] at h
      subst h
      simpa using hB
    · rw [iteration_posSaver_absorb bulkSize s pos force now ans hc] at h
      simp only [Option.some.injEq] at h
      subst h
      exact hs
  | docs v =>
    rw [iteration_docs] at h
    split_ifs at h with h1 h2
    · simp only [Option.some.injEq] at h
      subst h
      simpa using hB
    · simp only [Option.some.injEq] at h
      subst h
      simpa using h1
  | tick =>
    rw [iteration_tick] at h
    split_ifs at h
    simp only [Option.some.injEq] at h
    subst h
    simpa using hB
  | done => simp [iteration, selectStep] at h

/-- A run keeps the buffer below a positive bulk size. -/
theorem syncLoopFrom_bound (bulkSize : Int) (hB : 0 < bulkSize)
    (inputs : List (Select × Answers)) :
    ∀ s s1 : LoopState, (s.reqs.length : Int) < bulkSize →
      (syncLoopFrom bulkSize s inputs).1 = some s1 → (s1.reqs.length : Int) < bulkSize := by
  induction inputs with
  | nil =>
    intro s s1 hs h
    simp only [syncLoopFrom, Option.some.injEq] at h
    subst h
    exact hs
  | cons inp rest ih =>
    intro s s1 hs h
    obtain ⟨sel, ans⟩ := inp
    simp only [syncLoopFrom] at h
    rcases hit : iteration bulkSize s sel ans with ⟨_ | s2, eff⟩
    · rw [hit] at h
      simp at h
    · rw [hit] at h
      simp only at h
      have h2 : (iteration bulkSize s sel ans).1 = some s2 := by rw [hit]
      exact ih s2 s1 (iteration_bound bulkSize hB s s2 sel ans hs h2) h

/-- A flush that returned no error leaves the buffer empty. -/
theorem iteration_flushed (bulkSize : Int) (s s1 : LoopState) (sel : Select) (ans : Answers)
    (reqs : List Document) (hm : Effect.doBulk reqs false ∈ (iteration bulkSize s sel ans).2)
    (h : (iteration bulkSize s sel ans).1 = some s1) : s1.reqs = [] := by
  cases sel with
  | posSaver pos force now =>
    by_cases hc : force = true ∨ now - s.lastSavedTime > 3 * Second
    · rw [iteration_posSaver_accept bulkSize s pos force now ans hc] at h
      split_ifs at h
      simp only [Option.some.injEq] at h
      subst h
      rfl
    · rw [iteration_posSaver_absorb bulkSize s pos force now ans hc] at hm
      simp at hm
  | docs v =>
    rw [iteration_docs] at h hm
    split_ifs at h hm with h1 h2
    · simp only [Option.some.injEq] at h
      subst h
      rfl
    · simp at hm
  | tick =>
    rw [iteration_tick] at h
    split_ifs at h
    simp only [Option.some.injEq] at h
    subst h
    rfl
  | done => simp [iteration, selectStep] at h

/-- C20. With a positive effective bulk size, the buffer holds fewer documents
than the bulk size after every run of `syncLoop`, that is at the start of
every iteration. A document slice is appended and the whole buffer flushed
exactly when its length reaches the bulk size; a tick flushes; a flush that
returned no error leaves the buffer empty; an absorbed `posSaver` leaves the
variables unchanged. The effective bulk size is 128 when 0 is configured and
the configured one otherwise. -/
theorem C20_bounded_buffer (BulkSize start : Int) (hB : 0 < effectiveBulkSize BulkSize) :
    (∀ (inputs : List (Select × Answers)) (s : LoopState),
      (syncLoop BulkSize start inputs).1 = some s →
      (s.reqs.length : Int) < effectiveBulkSize BulkSize) ∧
    (∀ (s : LoopState) (v : List Document) (ans : Answers),
      iteration (effectiveBulkSize BulkSize) s (.docs v) ans =
        if ((s.reqs ++ v).length : Int) ≥ effectiveBulkSize BulkSize then
          if doBulk ans (s.reqs ++ v) = true then
            (none, [.recv v, .doBulk (s.reqs ++ v) true])
          else (some ⟨s.lastSavedTime, [], s.pos⟩, [.recv v, .doBulk (s.reqs ++ v) false])
        else (some ⟨s.lastSavedTime, s.reqs ++ v, s.pos⟩, [.recv v])) ∧
    (∀ (s : LoopState) (ans : Answers),
      iteration (effectiveBulkSize BulkSize) s .tick ans =
        if doBulk ans s.reqs = true then (none, [.doBulk s.reqs true])
        else (some ⟨s.lastSavedTime, [], s.pos⟩, [.doBulk s.reqs false])) ∧
    (∀ (s s1 : LoopState) (sel : Select) (ans : Answers) (reqs : List Document),
      Effect.doBulk reqs false ∈ (iteration (effectiveBulkSize BulkSize) s sel ans).2 →
      (iteration (effectiveBulkSize BulkSize) s sel ans).1 = some s1 → s1.reqs = []) ∧
    (∀ (s : LoopState) (pos : Position) (force : Bool) (now : Int) (ans : Answers),
      ¬ (force = true ∨ now - s.lastSavedTime > 3 * Second) →
      iteration (effectiveBulkSize BulkSize) s (.posSaver pos force now) ans = (some s, [])) ∧
    (BulkSize = 0 → effectiveBulkSize BulkSize = 128) ∧
    (BulkSize ≠ 0 → effectiveBulkSize BulkSize = BulkSize) := by
  refine ⟨?_, ?_, ?_, ?_, ?_, ?_, ?_⟩
  · intro inputs s h
    exact syncLoopFrom_bound _ hB inputs ⟨start, [], ⟨"", 0⟩⟩ s (by simpa using hB) h
  · intro s v ans
    exact iteration_docs _ s v ans
  · intro s ans
    exact iteration_tick _ s ans
  · intro s s1 sel ans reqs hm h
    exact iteration_flushed _ s s1 sel ans reqs hm h
  · intro s pos force now ans h
    exact iteration_posSaver_absorb _ s pos force now ans h
  · intro h
    simp [effectiveBulkSize, h]
  · intro h
    simp [effectiveBulkSize, h]

/-- C20 at a run that receives one document with the default bulk size. -/
theorem C20_bounded_buffer_witness :
    (((⟨0, [⟨"7", [("n", .str "a")]⟩], ⟨"", 0⟩⟩ : LoopState).reqs.length : Nat) : Int) <
      effectiveBulkSize 0 :=
  (C20_bounded_buffer 0 0 (by decide)).1 [(.docs [⟨"7", [("n", .str "a")]⟩], ⟨false, false⟩)]
    ⟨0, [⟨"7", [("n", .str "a")]⟩], ⟨"", 0⟩⟩ (by decide)

/-! ## The bit test of the `SET` case -/

theorem ldiff_two_pow (a i : Nat) :
    Nat.ldiff (2 ^ i) a = if a.testBit i = true then 0 else 2 ^ i := by
  apply Nat.eq_of_testBit_eq
  intro k
  rw [Nat.testBit_ldiff, Nat.testBit_two_pow]
  by_cases hk : i = k
  · subst hk
    by_cases h : a.testBit i = true
    · simp [h]
    · simp [h, Nat.testBit_two_pow]
  · by_cases h : a.testBit i = true
    · simp [h, hk]
    · simp [h, hk, Nat.testBit_two_pow]

theorem ldiff_low_mask (a : Nat) (ha : a < 2 ^ 63) : Nat.ldiff a (2 ^ 63 - 1) = 0 := by
  apply Nat.eq_of_testBit_eq
  intro k
  rw [Nat.testBit_ldiff, Nat.testBit_two_pow_sub_one, Nat.zero_testBit]
  by_cases hk : k < 63
  · simp [hk]
  · have hlt : a < 2 ^ k := lt_of_lt_of_le ha (Nat.pow_le_pow_right (by decide) (by omega))
    simp [Nat.testBit_lt_two_pow hlt]

theorem toInt64_two_pow_lt (i : Nat) (hi : i < 63) : toInt64 (2 ^ i) = ((2 ^ i : Nat) : Int) := by
  have h1 : (2 : Int) ^ i < 2 ^ 63 := pow_lt_pow_right₀ (by decide) hi
  have h0 : (0 : Int) < 2 ^ i := pow_pos (by decide) i
  unfold toInt64
  rw [Int.emod_eq_of_lt (by omega) (by omega)]
  push_cast
  omega

theorem toInt64_two_pow_63 : toInt64 (2 ^ 63) = Int.negSucc (2 ^ 63 - 1) := by decide

theorem toInt64_two_pow_ge (i : Nat) (hi : 64 ≤ i) : toInt64 (2 ^ i) = 0 := by
  obtain ⟨k, rfl⟩ : ∃ k, i = 64 + k := ⟨i - 64, by omega⟩
  unfold toInt64
  rw [pow_add, add_comm, Int.add_mul_emod_self_left]
  decide

/-- The bit test of the `SET` case: true for the bits below 63 that are set
in the two's-complement form of the bitmask, false from bit 63 on. -/
theorem setBit_test (m : Int) (hm : -2 ^ 63 ≤ m ∧ m < 2 ^ 63) (i : Nat) :
    decide (Int.land m (toInt64 (2 ^ i)) > 0) = (decide (i < 63) && Int.testBit m i) := by
  rcases Nat.lt_or_ge i 63 with hi | hi
  · rw [toInt64_two_pow_lt i hi]
    have hpos : 0 < 2 ^ i := Nat.pow_pos (by decide)
    cases m with
    | ofNat a =>
      show decide (((a &&& 2 ^ i : Nat) : Int) > 0) = _
      rw [Nat.and_two_pow]
      simp only [Int.testBit, hi, decide_True, Bool.true_and]
      cases h : a.testBit i <;> simp [hpos]
    | negSucc a =>
      show decide (((Nat.ldiff (2 ^ i) a : Nat) : Int) > 0) = _
      rw [ldiff_two_pow]
      simp only [Int.testBit, hi, decide_True, Bool.true_and]
      cases h : a.testBit i <;> simp [hpos]
  · have hd : decide (i < 63) = false := by simp; omega
    rw [hd, Bool.false_and]
    rcases Nat.eq_or_lt_of_le hi with h63 | h64
    · subst h63
      rw [toInt64_two_pow_63]
      cases m with
      | ofNat a =>
        have ha : a < 2 ^ 63 := by
          have := hm.2
          simp only [Int.ofNat_eq_coe] at this
          exact_mod_cast this
        show decide (((Nat.ldiff a (2 ^ 63 - 1) : Nat) : Int) > 0) = false
        rw [ldiff_low_mask a ha]
        rfl
      | negSucc a =>
        show decide (Int.negSucc (a ||| (2 ^ 63 - 1)) > 0) = false
        simp only [gt_iff_lt, decide_eq_false_iff_not, not_lt]
        exact le_of_lt (Int.negSucc_lt_zero _)
    · rw [toInt64_two_pow_ge i h64]
      cases m with
      | ofNat a =>
        show decide (((a &&& 0 : Nat) : Int) > 0) = false
        simp
      | negSucc a =>
        show decide (((Nat.ldiff 0 a : Nat) : Int) > 0) = false
        have : Nat.ldiff 0 a = 0 := by
          apply Nat.eq_of_testBit_eq
          intro k
          simp [Nat.testBit_ldiff]
        rw [this]
        rfl

/-- The `SET` case on an `int64` bitmask: the tokens whose index is below 63
and whose bit is set, joined by ",". -/
theorem makeReqColumnData_set (r : Lib) (col : TableColumn) (hT : col.Typ = .SET) (m : Int)
    (hm : -2 ^ 63 ≤ m ∧ m < 2 ^ 63) :
    makeReqColumnData r col (.int .int64 m) =
      .str (",".intercalate ((col.SetValues.enum.filter
        (fun p => decide (p.1 < 63) && Int.testBit m p.1)).map Prod.snd)) := by
  have hf : (fun p : Nat × String => decide (Int.land m (toInt64 (2 ^ p.1)) > 0)) =
      (fun p : Nat × String => decide (p.1 < 63) && Int.testBit m p.1) := by
    funext p
    exact setBit_test m hm p.1
  simp only [makeReqColumnData, hT, hf]

/-! ## The coercion of dates, enums and sets -/

/-- C13. On a `DATETIME` column the zero-date texts are returned as they are,
not as nil, and a byte-string is returned as a byte-string, not as a string:
the empty `case` of the switch does not fall through to the `TIMESTAMP` case,
which does return nil. -/
theorem C13_datetime_not_coerced :
    makeReqColumnData canalLib ⟨"created", .DATETIME, [], []⟩ (.str "0000-00-00 00:00:00") =
      .str "0000-00-00 00:00:00" ∧
    makeReqColumnData canalLib ⟨"created", .DATETIME, [], []⟩ (.bytes "1970-01-01 00:00:00") =
      .bytes "1970-01-01 00:00:00" ∧
    makeReqColumnData canalLib ⟨"created", .DATETIME, [], []⟩ (.bytes "2020-05-17 10:00:00") =
      .bytes "2020-05-17 10:00:00" ∧
    makeReqColumnData canalLib ⟨"created", .TIMESTAMP, [], []⟩ (.str "0000-00-00 00:00:00") =
      .nil := by
  decide

/-- C14. On a `TIMESTAMP` column a string or byte-string with text `s` gives
nil exactly when `s` is one of the three zero dates, on a `DATE` column
exactly when `s` is "0000-00-00", and the string `s` otherwise; a raw value
of another shape is returned as it is. -/
theorem C14_zero_dates (r : Lib) (col : TableColumn) (s : String) :
    (col.Typ = .TIMESTAMP →
      (makeReqColumnData r col (.str s) = .nil ↔
        (s = "0000-00-00 00:00:00" ∨ s = "1970-01-01 00:00:00" ∨ s = "1970-01-01 01:00:00")) ∧
      (makeReqColumnData r col (.bytes s) = .nil ↔
        (s = "0000-00-00 00:00:00" ∨ s = "1970-01-01 00:00:00" ∨ s = "1970-01-01 01:00:00")) ∧
      (¬ (s = "0000-00-00 00:00:00" ∨ s = "1970-01-01 00:00:00" ∨ s = "1970-01-01 01:00:00") →
        makeReqColumnData r col (.str s) = .str s ∧
        makeReqColumnData r col (.bytes s) = .str s)) ∧
    (col.Typ = .DATE →
      (makeReqColumnData r col (.str s) = .nil ↔ s = "0000-00-00") ∧
      (makeReqColumnData r col (.bytes s) = .nil ↔ s = "0000-00-00") ∧
      (s ≠ "0000-00-00" →
        makeReqColumnData r col (.str s) = .str s ∧
        makeReqColumnData r col (.bytes s) = .str s)) ∧
    (col.Typ = .TIMESTAMP ∨ col.Typ = .DATE →
      ∀ value : Value, (∀ t, value ≠ .str t) → (∀ t, value ≠ .bytes t) →
        makeReqColumnData r col value = value) := by
  refine ⟨?_, ?_, ?_⟩
  · intro hT
    have hstr : makeReqColumnData r col (.str s) = timestampResult s := by
      simp only [makeReqColumnData, hT]
    have hbytes : makeReqColumnData r col (.bytes s) = timestampResult s := by
      simp only [makeReqColumnData, hT]
    rw [hstr, hbytes]
    unfold timestampResult
    by_cases h : s = "0000-00-00 00:00:00" ∨ s = "1970-01-01 01:00:00" ∨
        s = "1970-01-01 00:00:00"
    · have h2 : s = "0000-00-00 00:00:00" ∨ s = "1970-01-01 00:00:00" ∨
          s = "1970-01-01 01:00:00" := by tauto
      simp [h, h2]
    · have h2 : ¬ (s = "0000-00-00 00:00:00" ∨ s = "1970-01-01 00:00:00" ∨
          s = "1970-01-01 01:00:00") := by tauto
      simp [h, h2]
  · intro hT
    have hstr : makeReqColumnData r col (.str s) = dateResult s := by
      simp only [makeReqColumnData, hT]
    have hbytes : makeReqColumnData r col (.bytes s) = dateResult s := by
      simp only [makeReqColumnData, hT]
    rw [hstr, hbytes]
    unfold dateResult
    by_cases h : s = "0000-00-00"
    · simp [h]
    · simp [h]
  · intro hT value h1 h2
    rcases hT with hT | hT
    · cases value with
      | str t => exact absurd rfl (h1 t)
      | bytes t => exact absurd rfl (h2 t)
      | _ => simp only [makeReqColumnData, hT]
    · cases value with
      | str t => exact absurd rfl (h1 t)
      | bytes t => exact absurd rfl (h2 t)
      | _ => simp only [makeReqColumnData, hT]

/-- C14 at a zero date and at a timestamp given as byte-string. -/
theorem C14_zero_dates_witness :
    (makeReqColumnData canalLib ⟨"day", .DATE, [], []⟩ (.str "0000-00-00") = .nil ↔
      "0000-00-00" = "0000-00-00") ∧
    (makeReqColumnData canalLib ⟨"seen", .TIMESTAMP, [], []⟩ (.bytes "2020-05-17 10:00:00") =
      .str "2020-05-17 10:00:00") :=
  ⟨((C14_zero_dates canalLib ⟨"day", .DATE, [], []⟩ "0000-00-00").2.1 rfl).1,
   (((C14_zero_dates canalLib ⟨"seen", .TIMESTAMP, [], []⟩ "2020-05-17 10:00:00").1 rfl).2.2
      (by decide)).2⟩

theorem toInt64_of_range (n : Int) (h : -2 ^ 63 ≤ n ∧ n < 2 ^ 63) : toInt64 n = n := by
  unfold toInt64
  rw [Int.emod_eq_of_lt (by omega) (by omega)]
  omega

theorem toInt64_min_pred : toInt64 (-2 ^ 63 - 1) = 2 ^ 63 - 1 := by decide

/-- The index expression of the `ENUM` case never panics: the range test
before it admits only indices that are in range. -/
theorem enumValue_ne_none (col : TableColumn) (value : Int) : enumValue col value ≠ none := by
  unfold enumValue
  simp only
  split_ifs with hg
  · simp
  · have h0 : ¬ toInt64 (value - 1) < 0 := fun h => hg (Or.inl h)
    have hidx : (toInt64 (value - 1)).toNat < col.EnumValues.length := by omega
    simp [indexString, h0, List.getElem?_eq_getElem hidx]

/-- C15. On an `ENUM` column with token list `E` (a slice, so shorter than
2^63) and an `int64` value `i`: the `int64` case returns the token at index
`i - 1` when `1 ≤ i ≤ |E|` and the empty string otherwise, also for the
minimum `int64` where `i - 1` wraps around; its index expression never
panics, the index being in range whenever the range test passes; a string
value is returned as it is. -/
theorem C15_enum (r : Lib) (col : TableColumn) (hT : col.Typ = .ENUM)
    (hlen : (col.EnumValues.length : Int) < 2 ^ 63) (i : Int)
    (hi : -2 ^ 63 ≤ i ∧ i < 2 ^ 63) :
    ((1 ≤ i ∧ i ≤ col.EnumValues.length) →
      ∃ token, col.EnumValues[(i - 1).toNat]? = some token ∧
        enumValue col i = some (.str token) ∧
        makeReqColumnData r col (.int .int64 i) = .str token) ∧
    (¬ (1 ≤ i ∧ i ≤ col.EnumValues.length) →
      enumValue col i = some (.str "") ∧
      makeReqColumnData r col (.int .int64 i) = .str "") ∧
    (enumValue col i ≠ none ∧
      (¬ (toInt64 (i - 1) < 0 ∨ toInt64 (i - 1) ≥ col.EnumValues.length) →
        (toInt64 (i - 1)).toNat < col.EnumValues.length ∧
        ∃ token, indexString col.EnumValues (toInt64 (i - 1)) = some token)) ∧
    (∀ s, makeReqColumnData r col (.str s) = .str s) := by
  have hwrap : toInt64 (i - 1) = if i = -2 ^ 63 then 2 ^ 63 - 1 else i - 1 := by
    by_cases hmin : i = -2 ^ 63
    · rw [if_pos hmin, hmin]
      exact toInt64_min_pred
    · rw [if_neg hmin]
      exact toInt64_of_range _ (by omega)
  have hcall : ∀ v, enumValue col i = some v →
      makeReqColumnData r col (.int .int64 i) = v := by
    intro v hv
    simp only [makeReqColumnData, hT, hv]
  refine ⟨?_, ?_, ⟨enumValue_ne_none col i, ?_⟩, ?_⟩
  · intro hin
    have hmin : i ≠ -2 ^ 63 := by omega
    rw [if_neg hmin] at hwrap
    have hidx : (i - 1).toNat < col.EnumValues.length := by omega
    have hguard : ¬ (i - 1 < 0 ∨ i - 1 ≥ (col.EnumValues.length : Int)) := by omega
    have h0 : ¬ (i - 1 < 0) := by omega
    have hval : enumValue col i = some (.str col.EnumValues[(i - 1).toNat]) := by
      simp only [enumValue, hwrap, if_neg hguard, indexString, if_neg h0,
        List.getElem?_eq_getElem hidx, Option.map_some']
    exact ⟨col.EnumValues[(i - 1).toNat], List.getElem?_eq_getElem hidx, hval, hcall _ hval⟩
  · intro hout
    have hval : enumValue col i = some (.str "") := by
      by_cases hmin : i = -2 ^ 63
      · rw [if_pos hmin] at hwrap
        have hguard : (2 : Int) ^ 63 - 1 < 0 ∨
            (2 : Int) ^ 63 - 1 ≥ (col.EnumValues.length : Int) := by omega
        simp only [enumValue, hwrap, if_pos hguard]
      · rw [if_neg hmin] at hwrap
        have hguard : i - 1 < 0 ∨ i - 1 ≥ (col.EnumValues.length : Int) := by omega
        simp only [enumValue, hwrap, if_pos hguard]
    exact ⟨hval, hcall _ hval⟩
  · intro hg
    have h0 : ¬ toInt64 (i - 1) < 0 := fun h => hg (Or.inl h)
    have hidx : (toInt64 (i - 1)).toNat < col.EnumValues.length := by omega
    exact ⟨hidx, col.EnumValues[(toInt64 (i - 1)).toNat], by
      simp [indexString, h0, List.getElem?_eq_getElem hidx]⟩
  · intro s
    simp only [makeReqColumnData, hT]

/-- C15 at the index 3 of three tokens, at the index 4 past their end and at
the minimum `int64`. -/
theorem C15_enum_witness :
    (∃ token, ["a", "b", "c"][((3 : Int) - 1).toNat]? = some token ∧
      enumValue ⟨"e", .ENUM, ["a", "b", "c"], []⟩ 3 = some (.str token) ∧
      makeReqColumnData canalLib ⟨"e", .ENUM, ["a", "b", "c"], []⟩ (.int .int64 3) =
        .str token) ∧
    (enumValue ⟨"e", .ENUM, ["a", "b", "c"], []⟩ 4 = some (.str "") ∧
      makeReqColumnData canalLib ⟨"e", .ENUM, ["a", "b", "c"], []⟩ (.int .int64 4) = .str "") ∧
    (enumValue ⟨"e", .ENUM, ["a", "b", "c"], []⟩ (-9223372036854775808) = some (.str "") ∧
      makeReqColumnData canalLib ⟨"e", .ENUM, ["a", "b", "c"], []⟩
        (.int .int64 (-9223372036854775808)) = .str "") :=
  ⟨(C15_enum canalLib ⟨"e", .ENUM, ["a", "b", "c"], []⟩ rfl (by decide) 3 (by decide)).1
      (by decide),
   (C15_enum canalLib ⟨"e", .ENUM, ["a", "b", "c"], []⟩ rfl (by decide) 4 (by decide)).2.1
      (by decide),
   (C15_enum canalLib ⟨"e", .ENUM, ["a", "b", "c"], []⟩ rfl (by decide)
      (-9223372036854775808) (by decide)).2.1 (by decide)⟩

set_option maxRecDepth 20000 in
/-- C16. On a `SET` column of 64 tokens the token of bit 63 is never returned:
the bitmask with only bit 63 set gives the empty string, and the bitmask with
all bits set gives the first 63 tokens only. -/
theorem C16_set_bit_63_dropped :
    makeReqColumnData canalLib set64Column (.int .int64 (-9223372036854775808)) = .str "" ∧
    makeReqColumnData canalLib set64Column (.int .int64 (-1)) =
      .str (",".intercalate (set64Column.SetValues.take 63)) ∧
    set64Column.SetValues.length = 64 ∧
    Int.testBit (-9223372036854775808) 63 = true ∧ Int.testBit (-1) 63 = true := by
  rw [makeReqColumnData_set canalLib set64Column rfl _ (by decide),
    makeReqColumnData_set canalLib set64Column rfl _ (by decide)]
  decide

/-! ## Numeric-bool fields -/

/-- The value the `numeric_bool` branch leaves in the field. -/
theorem setNumericBool_get (req : Document) (fieldName : String) (v : Value) :
    (∀ n, v = .int .int64 n → n > 0 →
      mapGet (setNumericBool req fieldName v).Properties fieldName = some (.int .int 1)) ∧
    ((∀ n, v = .int .int64 n → n ≤ 0) →
      mapGet (setNumericBool req fieldName v).Properties fieldName = some (.int .int 0)) := by
  constructor
  · intro n hv hn
    subst hv
    simp [setNumericBool, hn, Document.Set, mapGet_mapSet]
  · intro h
    unfold setNumericBool
    split
    · rename_i boolVal
      have hle := h boolVal rfl
      have hn : ¬ boolVal > 0 := by omega
      simp [hn, Document.Set, mapGet_mapSet]
    · simp [Document.Set, mapGet_mapSet]

/-- The insert builder's column body on a column whose one mapping has the
type `numeric_bool` and whose coerced value is not nil. -/
theorem insertColumn_numericBool (r : Lib) (rule : Rule) (hwf : rule.WF) (values : List Value)
    (req : Document) (i : Nat) (c : TableColumn) (kv : String × String) (raw : Value)
    (hfind : rule.FieldMapping.find? (fun kv => decide (kv.1 = c.Name)) = some kv)
    (htype : (getFieldParts kv.1 kv.2).2.2 = fieldTypeNumericBool)
    (hf : rule.CheckFilter c.Name = true) (hraw : values[i]? = some raw)
    (hv : makeReqColumnData r c raw ≠ .nil) :
    insertColumn r rule values req (i, c) =
      setNumericBool req (getFieldParts kv.1 kv.2).2.1 (makeReqColumnData r c raw) := by
  have hk : (getFieldParts kv.1 kv.2).1 = c.Name := find_key hfind
  have h1 : ¬ (fieldTypeNumericBool = fieldTypeList) := by decide
  simp only [insertColumn, hf, hraw, Bool.not_true, Bool.false_eq_true, if_false]
  rw [foldl_unique_key (insertMapping r c raw) c.Name (insertMapping_other r c raw) _ hwf, hfind]
  simp [insertMapping, hk, hv, htype, h1]

/-- On a changed column whose coerced after-value is not nil, the column
bodies of the update and of the insert builder agree. -/
theorem updateColumn_eq_insertColumn (r : Lib) (rule : Rule) (before after : List Value)
    (req : Document) (i : Nat) (c : TableColumn) (b a : Value)
    (hf : rule.CheckFilter c.Name = true) (hb : before[i]? = some b) (ha : after[i]? = some a)
    (hne : DeepEqual b a = false) (hv : makeReqColumnData r c a ≠ .nil) :
    updateColumn r rule before after req (i, c) = insertColumn r rule after req (i, c) := by
  simp only [updateColumn, insertColumn, hf, hb, ha, hne, Bool.not_true, Bool.false_eq_true,
    if_false]
  rw [foldl_congr_fun (updateMapping r c a) (insertMapping r c a) rule.FieldMapping _
    (fun acc x _ => updateMapping_eq_insertMapping r c a acc x hv)]
  simp only [hv, if_false, ne_eq, not_false_eq_true, if_true]

/-- C17 fails as stated: a positive `int8` value, as a `TINYINT` column
delivers it, gives the field value 0 in the insert and in the update builder. -/
theorem C17_numeric_bool_int8 :
    makeInsertRequest canalLib flagRule [[.int .int64 7, .int .int8 1]] =
      .ok [⟨"7", [("a", .int .int 0)]⟩] ∧
    makeUpdateRequest canalLib flagRule
      [[.int .int64 7, .int .int8 0], [.int .int64 7, .int .int8 1]] =
      .ok [⟨"7", [("a", .int .int 0)]⟩] := by
  decide

/-- C17, amended. For a column whose one mapping has the type `numeric_bool`
and whose coerced value is not nil, the insert builder and the update
builder (on a changed column) leave in the target field 1 when the coerced
value is a positive `int64`, and 0 in every other case. -/
theorem C17_numeric_bool (r : Lib) (rule : Rule) (hwf : rule.WF) (i : Nat) (c : TableColumn)
    (kv : String × String) (raw : Value)
    (hfind : rule.FieldMapping.find? (fun kv => decide (kv.1 = c.Name)) = some kv)
    (htype : (getFieldParts kv.1 kv.2).2.2 = fieldTypeNumericBool)
    (hf : rule.CheckFilter c.Name = true) (hv : makeReqColumnData r c raw ≠ .nil) :
    (∀ (values : List Value) (req : Document), values[i]? = some raw →
      (∀ n, makeReqColumnData r c raw = .int .int64 n → n > 0 →
        mapGet (insertColumn r rule values req (i, c)).Properties (getFieldParts kv.1 kv.2).2.1 =
          some (.int .int 1)) ∧
      ((∀ n, makeReqColumnData r c raw = .int .int64 n → n ≤ 0) →
        mapGet (insertColumn r rule values req (i, c)).Properties (getFieldParts kv.1 kv.2).2.1 =
          some (.int .int 0))) ∧
    (∀ (before after : List Value) (b : Value) (req : Document), before[i]? = some b →
      after[i]? = some raw → DeepEqual b raw = false →
      (∀ n, makeReqColumnData r c raw = .int .int64 n → n > 0 →
        mapGet (updateColumn r rule before after req (i, c)).Properties
          (getFieldParts kv.1 kv.2).2.1 = some (.int .int 1)) ∧
      ((∀ n, makeReqColumnData r c raw = .int .int64 n → n ≤ 0) →
        mapGet (updateColumn r rule before after req (i, c)).Properties
          (getFieldParts kv.1 kv.2).2.1 = some (.int .int 0))) := by
  constructor
  · intro values req hraw
    rw [insertColumn_numericBool r rule hwf values req i c kv raw hfind htype hf hraw hv]
    exact setNumericBool_get req _ _
  · intro before after b req hb ha hne
    rw [updateColumn_eq_insertColumn r rule before after req i c b raw hf hb ha hne hv,
      insertColumn_numericBool r rule hwf after req i c kv raw hfind htype hf ha hv]
    exact setNumericBool_get req _ _

/-- C17, amended, at the `int64` value 1 and at the `int8` value 1. -/
theorem C17_numeric_bool_witness :
    mapGet (insertColumn canalLib flagRule [.int .int64 7, .int .int64 1] (NewDocument "7")
      (1, ⟨"active", .NUMBER, [], []⟩)).Properties (getFieldParts "active" "a,numeric_bool").2.1 =
        some (.int .int 1) ∧
    mapGet (insertColumn canalLib flagRule [.int .int64 7, .int .int8 1] (NewDocument "7")
      (1, ⟨"active", .NUMBER, [], []⟩)).Properties (getFieldParts "active" "a,numeric_bool").2.1 =
        some (.int .int 0) :=
  ⟨((C17_numeric_bool canalLib flagRule (by decide) 1 ⟨"active", .NUMBER, [], []⟩
      ("active", "a,numeric_bool") (.int .int64 1) (by decide) (by decide) (by decide)
      (by decide)).1 [.int .int64 7, .int .int64 1] (NewDocument "7") (by decide)).1 1
      (by decide) (by decide),
   ((C17_numeric_bool canalLib flagRule (by decide) 1 ⟨"active", .NUMBER, [], []⟩
      ("active", "a,numeric_bool") (.int .int8 1) (by decide) (by decide) (by decide)
      (by decide)).1 [.int .int64 7, .int .int8 1] (NewDocument "7") (by decide)).2
      (by
        intro n hn
        simp [makeReqColumnData] at hn)⟩

/-! ## `strings.Split` and `getFieldParts` -/

theorem splitChars_ne_nil (sep : Char) (l : List Char) : splitChars sep l ≠ [] := by
  cases l with
  | nil => simp [splitChars]
  | cons c cs =>
    simp only [splitChars]
    split_ifs
    · simp
    · split <;> simp

theorem splitChars_length (sep : Char) (l : List Char) :
    (splitChars sep l).length = l.count sep + 1 := by
  induction l with
  | nil => simp [splitChars]
  | cons c cs ih =>
    simp only [splitChars]
    by_cases h : c = sep
    · subst h
      simp [ih]
    · have hc : List.count sep (c :: cs) = List.count sep cs := by
        rw [List.count_cons_of_ne]
        exact fun h2 => h h2.symm
      rw [if_neg h, hc, ← ih]
      split
      · rename_i heq
        exact absurd heq (splitChars_ne_nil sep cs)
      · rename_i w ws heq
        simp [heq]

theorem splitChars_head (sep : Char) (l : List Char) :
    (splitChars sep l).headD [] = l.takeWhile (fun ch => decide (ch ≠ sep)) := by
  induction l with
  | nil => simp [splitChars]
  | cons c cs ih =>
    simp only [splitChars]
    by_cases h : c = sep
    · subst h
      simp
    · rw [if_neg h]
      have htw : List.takeWhile (fun ch => decide (ch ≠ sep)) (c :: cs) =
          c :: List.takeWhile (fun ch => decide (ch ≠ sep)) cs := by
        rw [List.takeWhile_cons_of_pos]
        simpa using h
      rw [htw, ← ih]
      split
      · rename_i heq
        exact absurd heq (splitChars_ne_nil sep cs)
      · rename_i w ws heq
        simp [heq]

theorem splitChars_no_sep (sep : Char) (l : List Char) (h : l.count sep = 0) :
    splitChars sep l = [l] := by
  induction l with
  | nil => simp [splitChars]
  | cons c cs ih =>
    have hc : c ≠ sep := by
      intro hc
      subst hc
      simp at h
    have hcs : List.count sep cs = 0 := by
      rw [List.count_cons_of_ne (Ne.symm hc)] at h
      exact h
    simp only [splitChars, if_neg hc, ih hcs]

theorem splitChars_one_sep (sep : Char) (l : List Char) (h : l.count sep = 1) :
    splitChars sep l = [l.takeWhile (fun ch => decide (ch ≠ sep)),
      (l.dropWhile (fun ch => decide (ch ≠ sep))).drop 1] := by
  induction l with
  | nil => simp at h
  | cons c cs ih =>
    by_cases hc : c = sep
    · subst hc
      have hcs : List.count c cs = 0 := by
        simp at h
        exact h
      simp [splitChars, splitChars_no_sep c cs hcs]
    · have hcs : List.count sep cs = 1 := by
        rw [List.count_cons_of_ne (Ne.symm hc)] at h
        exact h
      simp only [splitChars, if_neg hc, ih hcs]
      simp [List.takeWhile_cons, List.dropWhile_cons, hc]

/-- C18. `getFieldParts k v` returns the source column `k`; the target field
is the text of `v` before its first comma, or `k` when that text is empty;
the type is the text after the comma when `v` has exactly one comma and the
empty string otherwise; the target field is not empty when `k` is not. -/
theorem C18_getFieldParts (k v : String) :
    (getFieldParts k v).1 = k ∧
    (getFieldParts k v).2.1 = (if beforeComma v = "" then k else beforeComma v) ∧
    (commas v = 1 → (getFieldParts k v).2.2 = afterComma v) ∧
    (commas v ≠ 1 → (getFieldParts k v).2.2 = "") ∧
    (k ≠ "" → (getFieldParts k v).2.1 ≠ "") := by
  have hhead : (Split v ',').headD "" = beforeComma v := by
    unfold Split beforeComma
    rw [← splitChars_head]
    cases hs : splitChars ',' v.data with
    | nil => exact absurd hs (splitChars_ne_nil _ _)
    | cons w ws => simp
  have hlen : (Split v ',').length = commas v + 1 := by
    unfold Split commas
    rw [List.length_map, splitChars_length]
  have hzero : ∀ s : String, 0 = s.length ↔ s = "" := by
    intro s
    constructor
    · intro h
      apply String.ext
      exact List.length_eq_zero.mp h.symm
    · intro h
      subst h
      rfl
  have hname : (getFieldParts k v).2.1 = (if beforeComma v = "" then k else beforeComma v) := by
    simp only [getFieldParts, hhead]
    by_cases hb : beforeComma v = ""
    · rw [if_pos hb, if_pos ((hzero _).mpr hb)]
    · rw [if_neg hb, if_neg (fun h => hb ((hzero _).mp h))]
  refine ⟨rfl, hname, ?_, ?_, ?_⟩
  · intro h1
    have h2 : 2 = (Split v ',').length := by rw [hlen, h1]
    simp only [getFieldParts, if_pos h2]
    unfold Split afterComma
    rw [splitChars_one_sep ',' v.data h1]
    simp
  · intro h1
    have h2 : ¬ (2 = (Split v ',').length) := by
      rw [hlen]
      omega
    simp only [getFieldParts, if_neg h2]
  · intro hk
    rw [hname]
    split_ifs with hb
    · exact hk
    · exact hb

/-- C18 at the mapping of `name` to `n,list`. -/
theorem C18_getFieldParts_witness :
    (getFieldParts "name" "n,list").2.2 = afterComma "n,list" ∧
    (getFieldParts "name" ",list").2.1 ≠ "" :=
  ⟨(C18_getFieldParts "name" "n,list").2.2.1 (by decide),
   (C18_getFieldParts "name" ",list").2.2.2.2 (by decide)⟩

/-! ## The insert of one row of the example table -/

/-- C19 fails as stated: the insert of the row (7, "a", nil) does not return a
document whose property map is {n: "a"}; the map also holds `id`. -/
theorem C19_insert_writes_id :
    ¬ ∃ d : Document,
      makeInsertRequest canalLib exampleRule [[.int .int64 7, .str "a", .nil]] = .ok [d] ∧
      d.Id = "7" ∧ ∀ k, mapGet d.Properties k = mapGet [("n", .str "a")] k := by
  rintro ⟨d, hd, -, hk⟩
  have hres : makeInsertRequest canalLib exampleRule [[.int .int64 7, .str "a", .nil]] =
      .ok [⟨"7", [("id", .int .int64 7), ("n", .str "a")]⟩] := by decide
  rw [hres] at hd
  simp only [Except.ok.injEq, List.cons.injEq, and_true] at hd
  subst hd
  have := hk "id"
  revert this
  decide

/-- C19, amended. With a primary-key reader that returns 7 for the row, the
insert of the row (7, "a", nil) under the example rule returns one document
with identifier "7" and property map {id: 7, n: "a"}: the column `id`, which
has no mapping, is written under its own name, and `v` is dropped as nil. -/
theorem C19_insert_scenario (r : Lib)
    (h : r.GetPKValues exampleTable [.int .int64 7, .str "a", .nil] = .ok [.int .int64 7]) :
    makeInsertRequest r exampleRule [[.int .int64 7, .str "a", .nil]] =
      .ok [⟨"7", [("id", .int .int64 7), ("n", .str "a")]⟩] := by
  have hpk : r.GetPKValues exampleRule.TableInfo [.int .int64 7, .str "a", .nil] =
      .ok [.int .int64 7] := h
  have hid : getDocID r exampleRule [.int .int64 7, .str "a", .nil] = .ok "7" := by
    have hv : idValues r exampleRule [.int .int64 7, .str "a", .nil] = .ok [.int .int64 7] :=
      hpk
    simp only [getDocID, hv]
    rfl
  simp only [makeInsertRequest, makeRequest, makeRequestLoop, hid]
  rfl

/-- C19, amended, with the row readers of the model. -/
theorem C19_insert_scenario_witness :
    makeInsertRequest canalLib exampleRule [[.int .int64 7, .str "a", .nil]] =
      .ok [⟨"7", [("id", .int .int64 7), ("n", .str "a")]⟩] :=
  C19_insert_scenario canalLib (by decide)

end River
